import Mathlib

/-!
Verification of the payment/installment management subsystem of
`buildingstore-be` (`src/manajemen_pembayaran`).

The Rust source is shallowly embedded.  Modelling conventions:

* SQL `REAL` amounts (`f64` in Rust) are modelled as `ℚ`.  The single place
  where floating-point arithmetic matters (`payments_are_equal`, which
  compares amounts up to `f64::EPSILON = 2⁻⁵²`) keeps the same shape over `ℚ`
  with the same epsilon constant.
* Timestamps are modelled as `Int` (seconds).  The repository serialises
  every date with `to_rfc3339` and re-parses it with a three-stage parser for
  which that serialisation round-trips exactly, so database date columns hold
  the timestamp value itself.  `method` and `status` columns keep their raw
  `String` representation and are parsed exactly as in the source.
* A database is a pair of tables (lists of rows in insertion order).
  Primary-key violations are the modelled insert failure.  `ORDER BY` is a
  stable sort on the named key (`List.insertionSort`), `LEFT JOIN` produces
  one row per child or a single null-child row.
* Each `sqlx` transaction is modelled by computing the transaction body on a
  copy of the state: a failing body leaves the caller's database unchanged
  (rollback), a successful body commits the new state.  The naive repository
  (`repository/payment_repository.rs`) issues its statements without a
  transaction, which is modelled by threading partial states through.
* `sqlx::Error` is collapsed to the two outcomes the code distinguishes:
  `RepoErr.rowNotFound` (`RowNotFound`, also used by the source for every
  parse failure) and `RepoErr.uniqueViolation` (database error on a
  conflicting insert).
* `Uuid::new_v4()` and `Utc::now()` are nondeterministic inputs and are
  passed as explicit parameters.
-/

namespace BStore

/-! ## Entity model (`model/payment.rs`, `enums/payment_status.rs`) -/

inductive PaymentMethod
  | Cash
  | CreditCard
  | BankTransfer
  | EWallet
deriving DecidableEq, Repr

inductive PaymentStatus
  | Paid
  | Installment
deriving DecidableEq, Repr

/-- `PaymentMethod::to_string` (`Display`): the serialised column value. -/
def PaymentMethod.toStr : PaymentMethod → String
  | .Cash => "CASH"
  | .CreditCard => "CREDIT_CARD"
  | .BankTransfer => "BANK_TRANSFER"
  | .EWallet => "E_WALLET"

/-- `PaymentStatus::to_string` (`Display`). -/
def PaymentStatus.toStr : PaymentStatus → String
  | .Paid => "LUNAS"
  | .Installment => "CICILAN"

/-- `PaymentStatus::from_string`. -/
def PaymentStatus.from_string : String → Option PaymentStatus
  | "LUNAS" => some .Paid
  | "CICILAN" => some .Installment
  | _ => none

structure Installment where
  id : String
  payment_id : String
  amount : ℚ
  payment_date : Int
deriving DecidableEq, Repr

structure Payment where
  id : String
  transaction_id : String
  amount : ℚ
  method : PaymentMethod
  status : PaymentStatus
  payment_date : Int
  installments : List Installment
  due_date : Option Int
deriving DecidableEq, Repr

/-! ## Database model (schema of `payments` / `installments`) -/

structure PaymentRow where
  id : String
  transaction_id : String
  amount : ℚ
  method : String
  status : String
  payment_date : Int
  due_date : Option Int
deriving DecidableEq, Repr

structure InstallmentRow where
  id : String
  payment_id : String
  amount : ℚ
  payment_date : Int
deriving DecidableEq, Repr

structure DB where
  payments : List PaymentRow
  installments : List InstallmentRow
deriving DecidableEq, Repr

/-- Serialisation performed by the `INSERT`/`UPDATE` binds in both
repositories (`to_string` on the enums, `to_rfc3339` on the dates). -/
def paymentToRow (p : Payment) : PaymentRow :=
  { id := p.id
    transaction_id := p.transaction_id
    amount := p.amount
    method := p.method.toStr
    status := p.status.toStr
    payment_date := p.payment_date
    due_date := p.due_date }

def installmentToRow (i : Installment) : InstallmentRow :=
  { id := i.id
    payment_id := i.payment_id
    amount := i.amount
    payment_date := i.payment_date }

/-- `parse_row_to_installment`: the installment columns decode directly. -/
def rowToInstallment (r : InstallmentRow) : Installment :=
  { id := r.id
    payment_id := r.payment_id
    amount := r.amount
    payment_date := r.payment_date }

inductive RepoErr
  | rowNotFound
  | uniqueViolation
deriving DecidableEq, Repr

/-! ## Joined rows and the row-aggregation algorithm
(`optimized_payment_repository.rs`) -/

/-- The installment side of one `LEFT JOIN` row, present iff the join
matched (the source detects this by `inst_id` being non-null). -/
structure InstCols where
  inst_id : String
  inst_payment_id : String
  inst_amount : ℚ
  inst_date : Int
deriving DecidableEq, Repr

/-- One row of
`SELECT p.*, i.* FROM payments p LEFT JOIN installments i ON p.id = i.payment_id`. -/
structure JoinedRow where
  id : String
  transaction_id : String
  amount : ℚ
  method : String
  status : String
  payment_date : Int
  due_date : Option Int
  inst : Option InstCols
deriving DecidableEq, Repr

/-- `OptimizedPembayaranRepository::parse_payment_method`. -/
def parse_payment_method : String → Option PaymentMethod
  | "CASH" => some .Cash
  | "CREDIT_CARD" => some .CreditCard
  | "BANK_TRANSFER" => some .BankTransfer
  | "E_WALLET" => some .EWallet
  | _ => none

/-- `parse_row_to_payment_base`: decode the payment columns of a joined row;
any parse failure is `RowNotFound` in the source, `none` here. -/
def parse_row_to_payment_base (row : JoinedRow) : Option Payment := do
  let m ← parse_payment_method row.method
  let s ← PaymentStatus.from_string row.status
  some
    { id := row.id
      transaction_id := row.transaction_id
      amount := row.amount
      method := m
      status := s
      payment_date := row.payment_date
      installments := []
      due_date := row.due_date }

/-- `try_parse_installment_from_joined_row`: `Err(RowNotFound)` when
`inst_id` is null, otherwise the decoded installment. -/
def try_parse_installment_from_joined_row (row : JoinedRow) : Option Installment :=
  match row.inst with
  | none => none
  | some ic =>
      some
        { id := ic.inst_id
          payment_id := ic.inst_payment_id
          amount := ic.inst_amount
          payment_date := ic.inst_date }

/-- `parse_joined_rows_to_payment`: base payment from the first row,
installments collected from every row whose installment side parses. -/
def parse_joined_rows_to_payment (rows : List JoinedRow) : Except RepoErr Payment :=
  match rows with
  | [] => .error .rowNotFound
  | first :: _ =>
      match parse_row_to_payment_base first with
      | none => .error .rowNotFound
      | some base =>
          .ok { base with
                  installments := rows.filterMap try_parse_installment_from_joined_row }

/-- `payments_map.get_mut(&payment_id)` + `payment.installments.push(i)`:
append `i` to the installment list of the (unique) entry with id `pid`. -/
def pushInstallment : List Payment → String → Installment → List Payment
  | [], _, _ => []
  | p :: rest, pid, i =>
      if p.id = pid then { p with installments := p.installments ++ [i] } :: rest
      else p :: pushInstallment rest pid i

/-- Loop body of `parse_grouped_rows_to_payments`: `acc` plays the role of
the `HashMap` plus the `payment_order` vector (entries in first-seen
order).  Each row first seeds a new entry when its id is unseen (failing
the whole call if the payment columns do not decode), then appends the
row's installment, when one parses, to the entry of the row's id. -/
def parse_grouped_go : List JoinedRow → List Payment → Except RepoErr (List Payment)
  | [], acc => .ok acc
  | row :: rest, acc =>
      match (if acc.any (fun p => p.id = row.id) then Except.ok acc
             else
               match parse_row_to_payment_base row with
               | none => Except.error RepoErr.rowNotFound
               | some p => Except.ok (acc ++ [p])) with
      | .error e => .error e
      | .ok acc1 =>
          match try_parse_installment_from_joined_row row with
          | some i => parse_grouped_go rest (pushInstallment acc1 row.id i)
          | none => parse_grouped_go rest acc1

/-- `parse_grouped_rows_to_payments`. -/
def parse_grouped_rows_to_payments (rows : List JoinedRow) : Except RepoErr (List Payment) :=
  parse_grouped_go rows []

/-! ## Query model -/

/-- Date order on installment rows, the `ORDER BY payment_date ASC` key. -/
def instRowLe (a b : InstallmentRow) : Prop := a.payment_date ≤ b.payment_date

instance : DecidableRel instRowLe := fun a b => Int.decLe a.payment_date b.payment_date

instance : IsTotal InstallmentRow instRowLe :=
  ⟨fun a b => Int.le_total a.payment_date b.payment_date⟩

instance : IsTrans InstallmentRow instRowLe :=
  ⟨fun _ _ _ h1 h2 => le_trans h1 h2⟩

/-- Id order on payment rows, the `ORDER BY p.id` key. -/
def payRowLe (a b : PaymentRow) : Prop := a.id ≤ b.id

instance : DecidableRel payRowLe := fun a b =>
  inferInstanceAs (Decidable (a.id ≤ b.id))

/-- `ORDER BY payment_date ASC` on installment rows: a stable sort. -/
def sortInstRows (rs : List InstallmentRow) : List InstallmentRow :=
  List.insertionSort instRowLe rs

/-- `ORDER BY p.id` on payment rows: a stable sort on the key string. -/
def sortPayRows (rs : List PaymentRow) : List PaymentRow :=
  List.insertionSort payRowLe rs

/-- The installment columns of a joined row. -/
def instColsOf (i : InstallmentRow) : InstCols :=
  { inst_id := i.id, inst_payment_id := i.payment_id,
    inst_amount := i.amount, inst_date := i.payment_date }

/-- One joined row: the payment columns of `p` next to an optional
installment side. -/
def mkJoined (p : PaymentRow) (o : Option InstCols) : JoinedRow :=
  { id := p.id, transaction_id := p.transaction_id, amount := p.amount,
    method := p.method, status := p.status, payment_date := p.payment_date,
    due_date := p.due_date, inst := o }

/-- The `LEFT JOIN` rows contributed by one payment row: one row per
matching installment, or a single row with a null installment side. -/
def leftJoinRows (p : PaymentRow) (insts : List InstallmentRow) : List JoinedRow :=
  match insts with
  | [] => [mkJoined p none]
  | _ => insts.map fun i => mkJoined p (some (instColsOf i))

/-- Result set of the single-id join query of `find_by_id`
(`WHERE p.id = $1 ORDER BY i.payment_date ASC`). -/
def findByIdRows (db : DB) (pid : String) : List JoinedRow :=
  (db.payments.filter fun r => r.id = pid).flatMap fun p =>
    leftJoinRows p (sortInstRows (db.installments.filter fun i => i.payment_id = pid))

/-- `OptimizedPembayaranRepository::find_by_id`. -/
def find_by_id (db : DB) (pid : String) : Except RepoErr Payment :=
  let rows := findByIdRows db pid
  if rows.isEmpty then .error .rowNotFound
  else parse_joined_rows_to_payment rows

/-- Filter maps are `HashMap<String, String>`: association lists with
distinct keys. -/
abbrev Filters := List (String × String)

def filterLookup (f : Filters) (k : String) : Option String :=
  (List.find? (fun kv => kv.1 = k) f).map (fun kv => kv.2)

/-- The `WHERE` predicate built by `build_filtered_query`: each present key
among `status`, `method`, `transaction_id` becomes an equality conjunct. -/
def filterPred (f : Option Filters) (r : PaymentRow) : Bool :=
  match f with
  | none => true
  | some m =>
      (match filterLookup m "status" with
       | some v => r.status = v
       | none => true) &&
      (match filterLookup m "method" with
       | some v => r.method = v
       | none => true) &&
      (match filterLookup m "transaction_id" with
       | some v => r.transaction_id = v
       | none => true)

/-- Result set of the batch join query of
`batch_load_payments_with_installments`
(`WHERE p.id IN (…) ORDER BY p.id, i.payment_date ASC`). -/
def batchRows (db : DB) (ids : List String) : List JoinedRow :=
  (sortPayRows (db.payments.filter fun r => ids.contains r.id)).flatMap fun p =>
    leftJoinRows p (sortInstRows (db.installments.filter fun i => i.payment_id = p.id))

/-- `OptimizedPembayaranRepository::find_all`: filtered id query, then one
batch join query aggregated by `parse_grouped_rows_to_payments`. -/
def find_all (db : DB) (f : Option Filters) : Except RepoErr (List Payment) :=
  let prows := db.payments.filter (filterPred f)
  if prows.isEmpty then .ok []
  else parse_grouped_rows_to_payments (batchRows db (prows.map fun r => r.id))

/-! ## Optimized repository writes -/

/-- `INSERT INTO payments …`: fails on a primary-key conflict. -/
def insertPaymentStmt (db : DB) (p : Payment) : Except RepoErr DB :=
  if db.payments.any (fun r => r.id = p.id) then .error .uniqueViolation
  else .ok { db with payments := db.payments ++ [paymentToRow p] }

/-- `INSERT INTO installments …` (`insert_installment_tx` body). -/
def insertInstallmentStmt (db : DB) (i : Installment) : Except RepoErr DB :=
  if db.installments.any (fun r => r.id = i.id) then .error .uniqueViolation
  else .ok { db with installments := db.installments ++ [installmentToRow i] }

/-- `batch_insert_installments`: sequential inserts inside the transaction;
the first failure aborts the whole transaction body. -/
def batchInsertInstallments : DB → List Installment → Except RepoErr DB
  | db, [] => .ok db
  | db, i :: rest =>
      match insertInstallmentStmt db i with
      | .error e => .error e
      | .ok db1 => batchInsertInstallments db1 rest

/-- The transaction body of `OptimizedPembayaranRepository::create`: the
payment insert, then the installment inserts when the list is non-empty. -/
def createTx (db : DB) (p : Payment) : Except RepoErr DB :=
  match insertPaymentStmt db p with
  | .error e => .error e
  | .ok db1 =>
      if p.installments.isEmpty then .ok db1
      else batchInsertInstallments db1 p.installments

/-- `OptimizedPembayaranRepository::create`: payment insert plus installment
inserts inside one transaction (failure rolls the state back), then a
re-read via `find_by_id`. -/
def opt_create (db : DB) (p : Payment) : DB × Except RepoErr Payment :=
  match createTx db p with
  | .error e => (db, .error e)
  | .ok db2 =>
      match find_by_id db2 p.id with
      | .error e => (db2, .error e)
      | .ok q => (db2, .ok q)

/-- `UPDATE payments SET … WHERE id = $7`: rewrites the scalar columns of
every matching row (zero matches is not an error for `execute`). -/
def updatePaymentStmt (db : DB) (p : Payment) : DB :=
  { db with
      payments := db.payments.map fun r =>
        if r.id = p.id then { paymentToRow p with id := r.id } else r }

/-- `OptimizedPembayaranRepository::update`: transactional scalar update,
then a re-read via `find_by_id` (which yields `RowNotFound` when no row
matched). -/
def opt_update (db : DB) (p : Payment) : DB × Except RepoErr Payment :=
  let db2 := updatePaymentStmt db p
  (db2, find_by_id db2 p.id)

/-- `OptimizedPembayaranRepository::add_installment`: one insert in its own
transaction. -/
def opt_add_installment (db : DB) (i : Installment) : DB × Except RepoErr Unit :=
  match insertInstallmentStmt db i with
  | .error e => (db, .error e)
  | .ok db2 => (db2, .ok ())

/-! ## Naive repository (`repository/payment_repository.rs`) -/

/-- `PembayaranRepository::parse_row_to_payment`. -/
def parse_row_to_payment (r : PaymentRow) : Except RepoErr Payment :=
  match parse_payment_method r.method with
  | none => .error .rowNotFound
  | some m =>
      match PaymentStatus.from_string r.status with
      | none => .error .rowNotFound
      | some s =>
          .ok { id := r.id, transaction_id := r.transaction_id, amount := r.amount,
                method := m, status := s, payment_date := r.payment_date,
                installments := [], due_date := r.due_date }

/-- `load_payment_with_installments`: `fetch_one` on the payment row, then
the installments of that payment ordered by `payment_date ASC`. -/
def load_payment_with_installments (db : DB) (pid : String) : Except RepoErr Payment :=
  match (db.payments.filter fun r => r.id = pid).head? with
  | none => .error .rowNotFound
  | some r =>
      match parse_row_to_payment r with
      | .error e => .error e
      | .ok base =>
          .ok { base with
                  installments :=
                    (sortInstRows (db.installments.filter fun i => i.payment_id = pid)).map
                      rowToInstallment }

/-- `PembayaranRepository::find_by_id`. -/
def naive_find_by_id (db : DB) (pid : String) : Except RepoErr Payment :=
  load_payment_with_installments db pid

/-- `PembayaranRepository::add_installment`: a bare insert, no transaction. -/
def naive_add_installment (db : DB) (i : Installment) : DB × Except RepoErr Unit :=
  match insertInstallmentStmt db i with
  | .error e => (db, .error e)
  | .ok db2 => (db2, .ok ())

/-- Installment loop of `PembayaranRepository::create`: sequential bare
inserts; a failure keeps every insert already executed. -/
def naiveInsertInstallments : DB → List Installment → DB × Except RepoErr Unit
  | db, [] => (db, .ok ())
  | db, i :: rest =>
      match insertInstallmentStmt db i with
      | .error e => (db, .error e)
      | .ok db1 => naiveInsertInstallments db1 rest

/-- `PembayaranRepository::create`: payment insert, re-read, then the
installment inserts — all outside any transaction. -/
def naive_create (db : DB) (p : Payment) : DB × Except RepoErr Payment :=
  match insertPaymentStmt db p with
  | .error e => (db, .error e)
  | .ok db1 =>
      match (db1.payments.filter fun r => r.id = p.id).head? with
      | none => (db1, .error .rowNotFound)
      | some row =>
          match parse_row_to_payment row with
          | .error e => (db1, .error e)
          | .ok created =>
              if p.installments.isEmpty then (db1, .ok created)
              else
                match naiveInsertInstallments db1 p.installments with
                | (db2, .error e) => (db2, .error e)
                | (db2, .ok _) => (db2, load_payment_with_installments db2 p.id)

/-- `PembayaranRepository::update`: scalar `UPDATE`, `fetch_one` re-read
(`RowNotFound` when the row is absent), then
`load_payment_with_installments`. -/
def naive_update (db : DB) (p : Payment) : DB × Except RepoErr Payment :=
  match ((updatePaymentStmt db p).payments.filter fun r => r.id = p.id).head? with
  | none => (updatePaymentStmt db p, .error .rowNotFound)
  | some row =>
      match parse_row_to_payment row with
      | .error e => (updatePaymentStmt db p, .error e)
      | .ok _ =>
          (updatePaymentStmt db p,
           load_payment_with_installments (updatePaymentStmt db p) p.id)

/-! ## Optimized service (`optimized_payment_service.rs`) -/

inductive OptimizedPaymentError
  | DatabaseError (message : String)
  | NotFound (entity id : String)
  | InvalidInput (field message : String)
  | ValidationError (errors : List String)
  | CacheError (message : String)
  | ConnectionError (message : String)
deriving DecidableEq, Repr

/-- `CachedPayment` entries of the result cache. -/
structure CachedPayment where
  payment : Payment
  cached_at : Int
  ttl_seconds : Int
deriving DecidableEq, Repr

/-- `CachedPayment::is_expired` at the given clock reading. -/
def CachedPayment.is_expired (c : CachedPayment) (now : Int) : Bool :=
  now - c.cached_at > c.ttl_seconds

/-- The shared `result_cache` map, as an association list with distinct
keys. -/
abbrev Cache := List (String × CachedPayment)

def cacheGet (cache : Cache) (id : String) : Option CachedPayment :=
  (List.find? (fun e => e.1 = id) cache).map (fun e => e.2)

def cacheRemove (cache : Cache) (id : String) : Cache :=
  List.filter (fun e => ¬ e.1 = id) cache

/-- `HashMap::insert`: unconditionally overwrite. -/
def cachePut (cache : Cache) (id : String) (c : CachedPayment) : Cache :=
  cacheRemove cache id ++ [(id, c)]

/-- Observable service state: the database, the cache, and a spy counter of
mutating repository calls (the "write count" of §8 of the spec). -/
structure SvcState where
  db : DB
  cache : Cache
  writes : Nat

/-- `convert_sqlx_error` for errors that are not specially mapped at the
call site. -/
def convert_sqlx_error : RepoErr → OptimizedPaymentError
  | .rowNotFound => .NotFound "Payment" "unknown"
  | .uniqueViolation => .DatabaseError "UNIQUE constraint failed"

/-- Miss path of `get_payment_by_id`: fetch from the store, translate
`RowNotFound`, cache the result with a 300 s TTL. -/
def svcFetchPayment (st : SvcState) (now : Int) (id : String) :
    Except OptimizedPaymentError Payment × SvcState :=
  match find_by_id st.db id with
  | .error .rowNotFound => (.error (.NotFound "Payment" id), st)
  | .error e => (.error (convert_sqlx_error e), st)
  | .ok p =>
      (.ok p,
       { st with cache := cachePut st.cache id { payment := p, cached_at := now, ttl_seconds := 300 } })

/-- `OptimizedPaymentService::get_payment_by_id`: cache first; a non-expired
hit returns the snapshot, an expired hit is evicted before the store is
consulted. -/
def svc_get_payment_by_id (st : SvcState) (now : Int) (id : String) :
    Except OptimizedPaymentError Payment × SvcState :=
  match cacheGet st.cache id with
  | some c =>
      if c.is_expired now then
        svcFetchPayment { st with cache := cacheRemove st.cache id } now id
      else (.ok c.payment, st)
  | none => svcFetchPayment st now id

/-- Rust `str::to_uppercase()`, computed characterwise (the recognised
method/status tokens are ASCII). -/
def toUpperStr (s : String) : String :=
  String.mk (s.data.map Char.toUpper)

/-- Rust `str::trim().is_empty()`: true exactly when every character is
whitespace, i.e. nothing survives trimming. -/
def trimIsEmpty (s : String) : Bool :=
  s.data.all Char.isWhitespace

/-- `parse_payment_method` of the service (`method_cache` lookup on the
upper-cased input). -/
def svcParseMethod (s : String) : Option PaymentMethod :=
  parse_payment_method (toUpperStr s)

/-- `parse_payment_status` of the service (`status_cache` lookup on the
upper-cased input). -/
def svcParseStatus (s : String) : Option PaymentStatus :=
  PaymentStatus.from_string (toUpperStr s)

/-- `validate_payment`: collects every violation. -/
def validate_payment (p : Payment) : List String :=
  (if trimIsEmpty p.id then ["Payment ID cannot be empty"] else []) ++
  (if trimIsEmpty p.transaction_id then ["Transaction ID cannot be empty"] else []) ++
  (if p.amount ≤ 0 then ["Payment amount must be greater than 0"] else []) ++
  (if p.status = .Installment ∧ p.installments.isEmpty then
     ["Payment with INSTALLMENT status must have at least one installment"]
   else []) ++
  (p.installments.enum.flatMap fun ni =>
    (if ni.2.amount ≤ 0 then
       ["Installment " ++ toString (ni.1 + 1) ++ " amount must be greater than 0"]
     else []) ++
    (if ¬ ni.2.payment_id = p.id then
       ["Installment " ++ toString (ni.1 + 1) ++ " payment_id does not match payment ID"]
     else []))

/-- One arm of the `match key.as_str()` in `validate_filters`. -/
def validateFilterEntry (k v : String) : List String :=
  if k = "status" then
    if (svcParseStatus v).isNone then ["Invalid status filter: " ++ v] else []
  else if k = "method" then
    if (svcParseMethod v).isNone then ["Invalid method filter: " ++ v] else []
  else if k = "transaction_id" then
    if trimIsEmpty v then ["Transaction ID filter cannot be empty"] else []
  else ["Unknown filter key: " ++ k]

/-- `validate_filters`: per-key validation; unknown keys are errors. -/
def validate_filters (f : Filters) : List String :=
  f.flatMap fun kv => validateFilterEntry kv.1 kv.2

/-- `f64::EPSILON = 2⁻⁵²`, the change-detection tolerance. -/
def f64Epsilon : ℚ := 1 / 4503599627370496

/-- `f64::abs`. -/
def ratAbs (q : ℚ) : ℚ := if q < 0 then -q else q

/-- `payments_are_equal`: the logical-equality check of the change
detection in `update_payment`. -/
def payments_are_equal (p1 p2 : Payment) : Bool :=
  decide (p1.id = p2.id) &&
  decide (p1.transaction_id = p2.transaction_id) &&
  decide (ratAbs (p1.amount - p2.amount) < f64Epsilon) &&
  decide (p1.method = p2.method) &&
  decide (p1.status = p2.status) &&
  decide (p1.installments.length = p2.installments.length)

/-- `OptimizedPaymentService::get_all_payments`: filters validated before
any query. -/
def svc_get_all_payments (st : SvcState) (f : Option Filters) :
    Except OptimizedPaymentError (List Payment) × SvcState :=
  match f with
  | some m =>
      match validate_filters m with
      | e :: es => (.error (.ValidationError (e :: es)), st)
      | [] =>
          match find_all st.db (some m) with
          | .error e => (.error (convert_sqlx_error e), st)
          | .ok ps => (.ok ps, st)
  | none =>
      match find_all st.db none with
      | .error e => (.error (convert_sqlx_error e), st)
      | .ok ps => (.ok ps, st)

/-- `OptimizedPaymentService::update_payment`: validate, fetch the existing
payment, short-circuit when logically equal, otherwise update and refresh
the cache. -/
def svc_update_payment (st : SvcState) (now : Int) (p : Payment) :
    Except OptimizedPaymentError Payment × SvcState :=
  match validate_payment p with
  | e :: es => (.error (.ValidationError (e :: es)), st)
  | [] =>
      match svc_get_payment_by_id st now p.id with
      | (.error e, st1) => (.error e, st1)
      | (.ok existing, st1) =>
          if payments_are_equal existing p then (.ok existing, st1)
          else
            match opt_update st1.db p with
            | (db2, .error e) =>
                (.error (convert_sqlx_error e), { st1 with db := db2, writes := st1.writes + 1 })
            | (db2, .ok updated) =>
                (.ok updated,
                 { db := db2
                   cache := cachePut st1.cache p.id
                     { payment := updated, cached_at := now, ttl_seconds := 300 }
                   writes := st1.writes + 1 })

/-- `OptimizedPaymentService::add_installment`.  `newId` stands for the
generated `"INST-" + uuid`, `now` for `Utc::now()`. -/
def svc_add_installment (st : SvcState) (now : Int) (pid : String) (amount : ℚ)
    (newId : String) : Except OptimizedPaymentError Payment × SvcState :=
  if amount ≤ 0 then
    (.error (.InvalidInput "amount" "Amount must be greater than 0"), st)
  else
    match svc_get_payment_by_id st now pid with
    | (.error e, st1) => (.error e, st1)
    | (.ok payment, st1) =>
        if ¬ payment.status = PaymentStatus.Installment then
          (.error (.InvalidInput "payment_status"
             "Cannot add installment to a payment that is not in INSTALLMENT status"), st1)
        else
          let inst : Installment :=
            { id := newId, payment_id := pid, amount := amount, payment_date := now }
          match opt_add_installment st1.db inst with
          | (db2, .error e) =>
              (.error (convert_sqlx_error e), { st1 with db := db2, writes := st1.writes + 1 })
          | (db2, .ok _) =>
              svc_get_payment_by_id { st1 with db := db2, writes := st1.writes + 1 } now pid

/-! ## Naive service (`service/payment_service.rs`) -/

inductive PaymentError
  | DatabaseError (message : String)
  | NotFound (message : String)
  | InvalidInput (message : String)
deriving DecidableEq, Repr

/-- `PaymentService::get_payment_by_id`. -/
def naive_svc_get_payment_by_id (db : DB) (id : String) : Except PaymentError Payment :=
  match naive_find_by_id db id with
  | .error .rowNotFound => .error (.NotFound ("Payment with id " ++ id ++ " not found"))
  | .error .uniqueViolation => .error (.DatabaseError "UNIQUE constraint failed")
  | .ok p => .ok p

/-- `PaymentService::add_installment`: fetch, check the status, push the new
installment onto an in-memory clone, then call the repository `update`
(which writes only the scalar payment columns). -/
def naive_svc_add_installment (db : DB) (pid : String) (amount : ℚ) (newId : String)
    (now : Int) : DB × Except PaymentError Payment :=
  match naive_svc_get_payment_by_id db pid with
  | .error e => (db, .error e)
  | .ok payment =>
      if ¬ payment.status = PaymentStatus.Installment then
        (db, .error (.InvalidInput
          "Cannot add installment to a payment that is not in INSTALLMENT status"))
      else
        let inst : Installment :=
          { id := newId, payment_id := pid, amount := amount, payment_date := now }
        let updated := { payment with installments := payment.installments ++ [inst] }
        match naive_update db updated with
        | (db2, .error e) =>
            (db2, .error (.DatabaseError (reprStr e)))
        | (db2, .ok q) => (db2, .ok q)

/-! ## Specification helpers -/

/-- Distinct values of a list in first-seen order. -/
def firstSeen : List String → List String
  | [] => []
  | x :: xs => x :: (firstSeen xs).filter (fun y => ¬ y = x)

/-- The installments contributed to payment `pid` by a row sequence: rows of
that id whose installment side parses, in row order. -/
def rowInsts (rows : List JoinedRow) (pid : String) : List Installment :=
  (rows.filter fun r => r.id = pid).filterMap try_parse_installment_from_joined_row

/-- The entry of the aggregation accumulator with the given payment id. -/
def findPay (acc : List Payment) (pid : String) : Option Payment :=
  acc.find? (fun p => p.id = pid)

/-- Replace the installment list of a payment. -/
def withInsts (p : Payment) (l : List Installment) : Payment :=
  { p with installments := l }

/-- The payment decoded from the payment columns of a row, without
installments. -/
def basePaymentOpt (pr : PaymentRow) : Option Payment :=
  parse_row_to_payment_base (mkJoined pr none)

/-- The payment `find_by_id` reconstructs for a stored row: decoded base
plus the date-sorted installments of that id. -/
def rowPaymentOpt (db : DB) (pr : PaymentRow) : Option Payment :=
  (basePaymentOpt pr).map fun b =>
    withInsts b
      ((sortInstRows (db.installments.filter fun i => i.payment_id = pr.id)).map
        rowToInstallment)

/-- Date order on domain installments. -/
def instLe (a b : Installment) : Prop := a.payment_date ≤ b.payment_date

instance : DecidableRel instLe := fun a b => Int.decLe a.payment_date b.payment_date

instance : IsTotal Installment instLe :=
  ⟨fun a b => Int.le_total a.payment_date b.payment_date⟩

instance : IsTrans Installment instLe :=
  ⟨fun _ _ _ h1 h2 => le_trans h1 h2⟩

/-- Stable date sort on domain installments. -/
def sortInstallments (l : List Installment) : List Installment :=
  List.insertionSort instLe l

/-! ## Basic lemmas -/

lemma parse_method_toStr (m : PaymentMethod) :
    parse_payment_method m.toStr = some m := by
  cases m <;> rfl

lemma status_from_toStr (s : PaymentStatus) :
    PaymentStatus.from_string s.toStr = some s := by
  cases s <;> rfl

lemma rowToInstallment_installmentToRow (i : Installment) :
    rowToInstallment (installmentToRow i) = i := rfl

@[simp] lemma mkJoined_id (pr : PaymentRow) (o : Option InstCols) :
    (mkJoined pr o).id = pr.id := rfl

@[simp] lemma mkJoined_inst (pr : PaymentRow) (o : Option InstCols) :
    (mkJoined pr o).inst = o := rfl

@[simp] lemma withInsts_id (p : Payment) (l : List Installment) :
    (withInsts p l).id = p.id := rfl

@[simp] lemma withInsts_installments (p : Payment) (l : List Installment) :
    (withInsts p l).installments = l := rfl

@[simp] lemma withInsts_withInsts (p : Payment) (l l2 : List Installment) :
    withInsts (withInsts p l) l2 = withInsts p l2 := rfl

/-- Decoding the payment columns ignores the installment side. -/
lemma parse_base_mkJoined (pr : PaymentRow) (o : Option InstCols) :
    parse_row_to_payment_base (mkJoined pr o) = basePaymentOpt pr := by
  simp [parse_row_to_payment_base, basePaymentOpt, mkJoined]

lemma basePaymentOpt_id {pr : PaymentRow} {b : Payment}
    (h : basePaymentOpt pr = some b) : b.id = pr.id := by
  unfold basePaymentOpt parse_row_to_payment_base at h
  cases hm : parse_payment_method (mkJoined pr none).method with
  | none => simp [hm] at h
  | some m =>
      cases hs : PaymentStatus.from_string (mkJoined pr none).status with
      | none => simp [hm, hs] at h
      | some s =>
          simp [hm, hs] at h
          subst h
          rfl

lemma basePaymentOpt_installments {pr : PaymentRow} {b : Payment}
    (h : basePaymentOpt pr = some b) : b.installments = [] := by
  unfold basePaymentOpt parse_row_to_payment_base at h
  cases hm : parse_payment_method (mkJoined pr none).method with
  | none => simp [hm] at h
  | some m =>
      cases hs : PaymentStatus.from_string (mkJoined pr none).status with
      | none => simp [hm, hs] at h
      | some s =>
          simp [hm, hs] at h
          subst h
          rfl

/-- Decoding the serialised row of a payment recovers its scalar fields. -/
lemma basePaymentOpt_paymentToRow (p : Payment) :
    basePaymentOpt (paymentToRow p) = some (withInsts p []) := by
  unfold basePaymentOpt parse_row_to_payment_base
  simp [mkJoined, paymentToRow, parse_method_toStr, status_from_toStr, withInsts]

/-- The installment side of the join rows of one payment decodes to exactly
its installment rows. -/
lemma filterMap_tryParse_leftJoin (pr : PaymentRow) (insts : List InstallmentRow) :
    (leftJoinRows pr insts).filterMap try_parse_installment_from_joined_row =
      insts.map rowToInstallment := by
  cases insts with
  | nil => simp [leftJoinRows, try_parse_installment_from_joined_row]
  | cons j js =>
      simp only [leftJoinRows, List.filterMap_map]
      have :
          (try_parse_installment_from_joined_row ∘ fun i => mkJoined pr (some (instColsOf i))) =
            fun i => some (rowToInstallment i) := by
        funext i
        rfl
      rw [this,
        show (fun i => some (rowToInstallment i)) = some ∘ rowToInstallment from rfl,
        List.filterMap_eq_map]

/-- `parse_joined_rows_to_payment` on the join rows of one decodable
payment row. -/
lemma parse_joined_leftJoin (pr : PaymentRow) (insts : List InstallmentRow)
    (b : Payment) (hb : basePaymentOpt pr = some b) :
    parse_joined_rows_to_payment (leftJoinRows pr insts) =
      .ok (withInsts b (insts.map rowToInstallment)) := by
  cases insts with
  | nil =>
      simp only [leftJoinRows, parse_joined_rows_to_payment]
      rw [parse_base_mkJoined, hb]
      simp [withInsts, try_parse_installment_from_joined_row]
  | cons j js =>
      have hrows : leftJoinRows pr (j :: js) =
          mkJoined pr (some (instColsOf j)) :: js.map fun i => mkJoined pr (some (instColsOf i)) := by
        simp [leftJoinRows]
      rw [hrows]
      simp only [parse_joined_rows_to_payment]
      rw [parse_base_mkJoined, hb]
      have := filterMap_tryParse_leftJoin pr (j :: js)
      rw [hrows] at this
      simp only [this]
      rfl

/-- If the payments table holds exactly one row with the queried id,
`find_by_id` returns that row's decoded payment with its date-sorted
installments. -/
lemma find_by_id_eq (db : DB) (pr : PaymentRow) (b : Payment)
    (hfilter : db.payments.filter (fun r => r.id = pr.id) = [pr])
    (hb : basePaymentOpt pr = some b) :
    find_by_id db pr.id = .ok
      (withInsts b
        ((sortInstRows (db.installments.filter fun i => i.payment_id = pr.id)).map
          rowToInstallment)) := by
  unfold find_by_id findByIdRows
  rw [hfilter]
  simp only [List.flatMap_cons, List.flatMap_nil, List.append_nil]
  have hne : ¬ (leftJoinRows pr
      (sortInstRows (db.installments.filter fun i => i.payment_id = pr.id))).isEmpty = true := by
    cases h : sortInstRows (db.installments.filter fun i => i.payment_id = pr.id) with
    | nil => simp [leftJoinRows, h]
    | cons x xs => simp [leftJoinRows, h]
  rw [if_neg hne]
  exact parse_joined_leftJoin pr _ b hb

/-- Members of a list whose mapped ids are distinct are determined by their
id. -/
lemma nodup_map_inj {α β : Type} {f : α → β} {l : List α}
    (hnd : (l.map f).Nodup) {a b : α} (ha : a ∈ l) (hb : b ∈ l)
    (hf : f a = f b) : a = b := by
  induction l with
  | nil => cases ha
  | cons x xs ih =>
      simp only [List.map_cons, List.nodup_cons] at hnd
      rcases List.mem_cons.mp ha with rfl | ha2
      · rcases List.mem_cons.mp hb with rfl | hb2
        · rfl
        · exact absurd (hf ▸ List.mem_map_of_mem f hb2) hnd.1
      · rcases List.mem_cons.mp hb with rfl | hb2
        · exact absurd (hf ▸ List.mem_map_of_mem f ha2) hnd.1
        · exact ih hnd.2 ha2 hb2

/-- With distinct ids, filtering the table on a member's id yields exactly
that row. -/
lemma filter_id_eq_single {l : List PaymentRow} (hnd : (l.map PaymentRow.id).Nodup)
    {pr : PaymentRow} (hm : pr ∈ l) :
    l.filter (fun r => r.id = pr.id) = [pr] := by
  induction l with
  | nil => cases hm
  | cons x xs ih =>
      simp only [List.map_cons, List.nodup_cons] at hnd
      rcases List.mem_cons.mp hm with rfl | hm2
      · have hx : xs.filter (fun r => r.id = pr.id) = [] := by
          apply List.filter_eq_nil_iff.mpr
          intro r hr
          simp only [decide_eq_true_eq]
          intro hEq
          exact hnd.1 (hEq ▸ List.mem_map_of_mem PaymentRow.id hr)
        simp [List.filter_cons, hx]
      · have hx : ¬ x.id = pr.id := by
          intro hEq
          exact hnd.1 (hEq ▸ List.mem_map_of_mem PaymentRow.id hm2)
        simp only [List.filter_cons, decide_eq_true_eq]
        rw [if_neg hx]
        exact ih hnd.2 hm2

/-! ## Lemmas about the aggregation accumulator -/

@[simp] lemma push_id (p : Payment) (i : Installment) :
    ({ p with installments := p.installments ++ [i] } : Payment).id = p.id := rfl

lemma pushInstallment_map_id (acc : List Payment) (pid : String) (i : Installment) :
    (pushInstallment acc pid i).map Payment.id = acc.map Payment.id := by
  induction acc with
  | nil => rfl
  | cons p rest ih =>
      by_cases hp : p.id = pid
      · simp [pushInstallment, hp]
      · simp [pushInstallment, hp, ih]

lemma pushInstallment_append_last (acc : List Payment) (pid : String) (i : Installment)
    (b : Payment) (h : ∀ p ∈ acc, ¬ p.id = pid) (hb : b.id = pid) :
    pushInstallment (acc ++ [b]) pid i =
      acc ++ [{ b with installments := b.installments ++ [i] }] := by
  induction acc with
  | nil => simp [pushInstallment, hb]
  | cons p rest ih =>
      have hp : ¬ p.id = pid := h p (List.mem_cons_self p rest)
      simp only [List.cons_append, pushInstallment, if_neg hp]
      exact congrArg (fun l => p :: l) (ih fun q hq => h q (List.mem_cons_of_mem p hq))

lemma findPay_mem {acc : List Payment} {pid : String} {q : Payment}
    (h : findPay acc pid = some q) : q ∈ acc ∧ q.id = pid := by
  unfold findPay at h
  have h1 := List.find?_some h
  have h2 := List.mem_of_find?_eq_some h
  exact ⟨h2, by simpa using h1⟩

lemma findPay_eq_none {acc : List Payment} {pid : String}
    (h : ∀ p ∈ acc, ¬ p.id = pid) : findPay acc pid = none := by
  unfold findPay
  apply List.find?_eq_none.mpr
  intro p hp
  simpa using h p hp

lemma findPay_self {acc : List Payment} (hnd : (acc.map Payment.id).Nodup)
    {p : Payment} (hmem : p ∈ acc) : findPay acc p.id = some p := by
  induction acc with
  | nil => cases hmem
  | cons x rest ih =>
      simp only [List.map_cons, List.nodup_cons] at hnd
      rcases List.mem_cons.mp hmem with rfl | hm2
      · unfold findPay
        simp [List.find?_cons]
      · have hx : ¬ x.id = p.id := by
          intro hEq
          exact hnd.1 (hEq ▸ List.mem_map_of_mem Payment.id hm2)
        unfold findPay at ih ⊢
        rw [List.find?_cons_of_neg _ (by simpa using hx)]
        exact ih hnd.2 hm2

lemma findPay_of_any {acc : List Payment} {pid : String}
    (h : acc.any (fun p => p.id = pid) = true) :
    ∃ q, findPay acc pid = some q := by
  induction acc with
  | nil => simp [List.any_nil] at h
  | cons x rest ih =>
      by_cases hx : x.id = pid
      · exact ⟨x, by unfold findPay; simp [List.find?_cons, hx]⟩
      · simp only [List.any_cons, Bool.or_eq_true, decide_eq_true_eq] at h
        rcases h with h1 | h2
        · exact absurd h1 hx
        · rcases ih h2 with ⟨q, hq⟩
          refine ⟨q, ?_⟩
          unfold findPay at hq ⊢
          rw [List.find?_cons_of_neg _ (by simpa using hx)]
          exact hq

lemma findPay_append_ne (acc : List Payment) (b : Payment) (pid : String)
    (hb : ¬ b.id = pid) :
    findPay (acc ++ [b]) pid = findPay acc pid := by
  induction acc with
  | nil =>
      unfold findPay
      simp [List.find?_cons, hb]
  | cons x rest ih =>
      unfold findPay at ih ⊢
      by_cases hx : x.id = pid
      · simp [List.find?_cons, hx]
      · rw [List.cons_append, List.find?_cons_of_neg _ (by simpa using hx),
          List.find?_cons_of_neg _ (by simpa using hx)]
        exact ih

lemma findPay_append_self (acc : List Payment) (b : Payment) (pid : String)
    (h : ∀ p ∈ acc, ¬ p.id = pid) (hb : b.id = pid) :
    findPay (acc ++ [b]) pid = some b := by
  induction acc with
  | nil =>
      unfold findPay
      simp [List.find?_cons, hb]
  | cons x rest ih =>
      have hx : ¬ x.id = pid := h x (List.mem_cons_self x rest)
      unfold findPay at ih ⊢
      rw [List.cons_append, List.find?_cons_of_neg _ (by simpa using hx)]
      exact ih fun q hq => h q (List.mem_cons_of_mem x hq)

lemma findPay_push_eq {acc : List Payment} (hnd : (acc.map Payment.id).Nodup)
    {pid : String} {q : Payment} (hq : findPay acc pid = some q) (i : Installment) :
    findPay (pushInstallment acc pid i) pid =
      some { q with installments := q.installments ++ [i] } := by
  induction acc with
  | nil => cases hq
  | cons x rest ih =>
      simp only [List.map_cons, List.nodup_cons] at hnd
      by_cases hx : x.id = pid
      · unfold findPay at hq
        rw [List.find?_cons_of_pos _ (by simpa using hx)] at hq
        cases hq
        unfold pushInstallment findPay
        rw [if_pos hx]
        simp [List.find?_cons, hx]
      · unfold findPay at hq
        rw [List.find?_cons_of_neg _ (by simpa using hx)] at hq
        unfold pushInstallment
        rw [if_neg hx]
        unfold findPay
        rw [List.find?_cons_of_neg _ (by simpa using hx)]
        exact ih hnd.2 hq

lemma findPay_push_ne (acc : List Payment) (pid x : String) (i : Installment)
    (hx : ¬ x = pid) :
    findPay (pushInstallment acc pid i) x = findPay acc x := by
  induction acc with
  | nil => rfl
  | cons p rest ih =>
      by_cases hp : p.id = pid
      · unfold pushInstallment
        rw [if_pos hp]
        unfold findPay
        have hpx : ¬ p.id = x := fun hEq => hx ((hEq ▸ hp : x = pid))
        rw [List.find?_cons_of_neg _ (by simpa using hpx),
          List.find?_cons_of_neg _ (by simpa using hpx)]
      · unfold pushInstallment
        rw [if_neg hp]
        unfold findPay at ih ⊢
        by_cases hpx : p.id = x
        · simp [List.find?_cons, hpx]
        · rw [List.find?_cons_of_neg _ (by simpa using hpx),
            List.find?_cons_of_neg _ (by simpa using hpx)]
          exact ih

/-! ## Lemmas about `firstSeen` and `rowInsts` -/

lemma rowInsts_cons_eq {row : JoinedRow} (rest : List JoinedRow) {pid : String}
    (h : row.id = pid) :
    rowInsts (row :: rest) pid =
      (try_parse_installment_from_joined_row row).toList ++ rowInsts rest pid := by
  unfold rowInsts
  rw [List.filter_cons_of_pos (by simpa using h)]
  cases hi : try_parse_installment_from_joined_row row <;> simp [hi]

lemma rowInsts_cons_ne {row : JoinedRow} (rest : List JoinedRow) {pid : String}
    (h : ¬ row.id = pid) :
    rowInsts (row :: rest) pid = rowInsts rest pid := by
  unfold rowInsts
  rw [List.filter_cons_of_neg (by simpa using h)]

lemma parse_base_fields {row : JoinedRow} {b : Payment}
    (h : parse_row_to_payment_base row = some b) :
    b.id = row.id ∧ b.installments = [] := by
  unfold parse_row_to_payment_base at h
  cases hm : parse_payment_method row.method with
  | none => simp [hm] at h
  | some m =>
      cases hs : PaymentStatus.from_string row.status with
      | none => simp [hm, hs] at h
      | some s =>
          simp only [hm, hs, Option.bind_eq_bind, Option.some_bind, Option.some_inj] at h
          subst h
          exact ⟨rfl, rfl⟩

/-! ## Step equations for `parse_grouped_go` -/

lemma go_seen_some {acc : List Payment} {row : JoinedRow} (rest : List JoinedRow)
    {i : Installment} (hseen : acc.any (fun p => p.id = row.id) = true)
    (hi : try_parse_installment_from_joined_row row = some i) :
    parse_grouped_go (row :: rest) acc =
      parse_grouped_go rest (pushInstallment acc row.id i) := by
  simp only [parse_grouped_go, if_pos hseen, hi]

lemma go_seen_none {acc : List Payment} {row : JoinedRow} (rest : List JoinedRow)
    (hseen : acc.any (fun p => p.id = row.id) = true)
    (hi : try_parse_installment_from_joined_row row = none) :
    parse_grouped_go (row :: rest) acc = parse_grouped_go rest acc := by
  simp only [parse_grouped_go, if_pos hseen, hi]

lemma go_unseen_some {acc : List Payment} {row : JoinedRow} (rest : List JoinedRow)
    {b : Payment} {i : Installment}
    (hseen : ¬ acc.any (fun p => p.id = row.id) = true)
    (hb : parse_row_to_payment_base row = some b)
    (hi : try_parse_installment_from_joined_row row = some i) :
    parse_grouped_go (row :: rest) acc =
      parse_grouped_go rest (pushInstallment (acc ++ [b]) row.id i) := by
  simp only [parse_grouped_go, if_neg hseen, hb, hi]

lemma go_unseen_none {acc : List Payment} {row : JoinedRow} (rest : List JoinedRow)
    {b : Payment}
    (hseen : ¬ acc.any (fun p => p.id = row.id) = true)
    (hb : parse_row_to_payment_base row = some b)
    (hi : try_parse_installment_from_joined_row row = none) :
    parse_grouped_go (row :: rest) acc = parse_grouped_go rest (acc ++ [b]) := by
  simp only [parse_grouped_go, if_neg hseen, hb, hi]

lemma go_unseen_fail {acc : List Payment} {row : JoinedRow} (rest : List JoinedRow)
    (hseen : ¬ acc.any (fun p => p.id = row.id) = true)
    (hb : parse_row_to_payment_base row = none) :
    parse_grouped_go (row :: rest) acc = .error .rowNotFound := by
  simp only [parse_grouped_go, if_neg hseen, hb]

@[simp] lemma withInsts_mk (q : Payment) (l l2 : List Installment) :
    withInsts { q with installments := l } l2 = withInsts q l2 := rfl

lemma filter_notmem_cons (accIds : List String) (x : String) (l : List String)
    (hx : x ∈ accIds) :
    (x :: l.filter (fun y => ¬ y = x)).filter (fun y => ¬ y ∈ accIds) =
      l.filter (fun y => ¬ y ∈ accIds) := by
  rw [List.filter_cons_of_neg (by simpa using hx), List.filter_filter]
  apply List.filter_congr
  intro y _
  by_cases hya : y ∈ accIds
  · simp [hya]
  · have hyx : ¬ y = x := fun hEq => hya (hEq ▸ hx)
    simp [hya, hyx]

lemma filter_notmem_append (accIds : List String) (x : String) (l : List String) :
    l.filter (fun y => ¬ y ∈ accIds ++ [x]) =
      (l.filter (fun y => ¬ y = x)).filter (fun y => ¬ y ∈ accIds) := by
  rw [List.filter_filter]
  apply List.filter_congr
  intro y _
  by_cases hyx : y = x
  · simp [hyx]
  · by_cases hya : y ∈ accIds
    · simp [hya, hyx]
    · simp [hya, hyx]

/-- Invariant of the aggregation loop: the result extends the accumulator
in first-seen id order, and each emitted payment carries the installments
of its id appended in row order to whatever the accumulator already held,
with its scalar fields taken from its accumulator entry or else from the
first row of its id. -/
lemma parse_grouped_go_spec (rows : List JoinedRow) :
    ∀ (acc ps : List Payment),
      (acc.map Payment.id).Nodup →
      parse_grouped_go rows acc = .ok ps →
      (ps.map Payment.id =
        acc.map Payment.id ++
          (firstSeen (rows.map JoinedRow.id)).filter
            (fun y => ¬ y ∈ acc.map Payment.id)) ∧
      ∀ p ∈ ps,
        (∀ q, findPay acc p.id = some q →
            p = withInsts q (q.installments ++ rowInsts rows p.id)) ∧
        (findPay acc p.id = none →
            ∃ r b, rows.find? (fun r2 => r2.id = p.id) = some r ∧
              parse_row_to_payment_base r = some b ∧
              p = withInsts b (rowInsts rows p.id)) := by
  induction rows with
  | nil =>
      intro acc ps hnd h
      simp only [parse_grouped_go, Except.ok.injEq] at h
      subst h
      refine ⟨by simp [firstSeen], ?_⟩
      intro p hp
      constructor
      · intro q hq
        rw [findPay_self hnd hp] at hq
        cases hq
        show p = withInsts p (p.installments ++ rowInsts [] p.id)
        rw [show rowInsts [] p.id = [] from rfl, List.append_nil]
        rfl
      · intro hq
        rw [findPay_self hnd hp] at hq
        cases hq
  | cons row rest ih =>
      intro acc ps hnd h
      by_cases hseen : acc.any (fun p => p.id = row.id) = true
      · -- the row's id is already in the accumulator
        have hmem : row.id ∈ acc.map Payment.id := by
          rcases List.any_eq_true.mp hseen with ⟨q, hq, hid⟩
          simp only [decide_eq_true_eq] at hid
          exact hid ▸ List.mem_map_of_mem Payment.id hq
        have hids :
            (firstSeen ((row :: rest).map JoinedRow.id)).filter
                (fun y => ¬ y ∈ acc.map Payment.id) =
              (firstSeen (rest.map JoinedRow.id)).filter
                (fun y => ¬ y ∈ acc.map Payment.id) := by
          simp only [List.map_cons, firstSeen]
          exact filter_notmem_cons _ _ _ hmem
        cases hi : try_parse_installment_from_joined_row row with
        | some i =>
            rw [go_seen_some rest hseen hi] at h
            have hnd2 : ((pushInstallment acc row.id i).map Payment.id).Nodup := by
              rw [pushInstallment_map_id]; exact hnd
            obtain ⟨ih1, ih2⟩ := ih (pushInstallment acc row.id i) ps hnd2 h
            constructor
            · rw [ih1, pushInstallment_map_id, hids]
            · intro p hp
              obtain ⟨ihSome, ihNone⟩ := ih2 p hp
              constructor
              · intro q hq
                by_cases hpid : p.id = row.id
                · have hq2 :
                      findPay (pushInstallment acc row.id i) p.id =
                        some { q with installments := q.installments ++ [i] } := by
                    rw [hpid]
                    exact findPay_push_eq hnd (hpid ▸ hq) i
                  have h3 : p = withInsts q ((q.installments ++ [i]) ++ rowInsts rest p.id) :=
                    ihSome _ hq2
                  rw [rowInsts_cons_eq rest (show row.id = p.id from hpid.symm), hi]
                  exact h3.trans (by rw [List.append_assoc]; rfl)
                · rw [findPay_push_ne acc row.id p.id i hpid] at ihSome
                  rw [rowInsts_cons_ne rest (fun hEq => hpid hEq.symm)]
                  exact ihSome q hq
              · intro hq
                by_cases hpid : p.id = row.id
                · rcases findPay_of_any hseen with ⟨q, hq2⟩
                  rw [hpid] at hq
                  rw [hq] at hq2
                  cases hq2
                · rw [findPay_push_ne acc row.id p.id i hpid] at ihNone
                  rcases ihNone hq with ⟨r, b, hfind, hb, hpeq⟩
                  refine ⟨r, b, ?_, hb, ?_⟩
                  · rw [List.find?_cons_of_neg _ (by simpa using fun hEq => hpid hEq.symm)]
                    exact hfind
                  · rw [rowInsts_cons_ne rest (fun hEq => hpid hEq.symm)]
                    exact hpeq
        | none =>
            rw [go_seen_none rest hseen hi] at h
            obtain ⟨ih1, ih2⟩ := ih acc ps hnd h
            constructor
            · rw [ih1, hids]
            · intro p hp
              obtain ⟨ihSome, ihNone⟩ := ih2 p hp
              constructor
              · intro q hq
                by_cases hpid : p.id = row.id
                · have h3 : p = withInsts q (q.installments ++ rowInsts rest p.id) :=
                    ihSome q hq
                  rw [rowInsts_cons_eq rest (show row.id = p.id from hpid.symm), hi]
                  exact h3
                · rw [rowInsts_cons_ne rest (fun hEq => hpid hEq.symm)]
                  exact ihSome q hq
              · intro hq
                by_cases hpid : p.id = row.id
                · rcases findPay_of_any hseen with ⟨q, hq2⟩
                  rw [hpid] at hq
                  rw [hq] at hq2
                  cases hq2
                · rcases ihNone hq with ⟨r, b, hfind, hb, hpeq⟩
                  refine ⟨r, b, ?_, hb, ?_⟩
                  · rw [List.find?_cons_of_neg _ (by simpa using fun hEq => hpid hEq.symm)]
                    exact hfind
                  · rw [rowInsts_cons_ne rest (fun hEq => hpid hEq.symm)]
                    exact hpeq
      · -- a fresh id: the row must decode to a new base entry
        have hforall : ∀ p ∈ acc, ¬ p.id = row.id := by
          intro p hp hpid
          exact hseen (List.any_eq_true.mpr ⟨p, hp, by simpa using hpid⟩)
        have hnotin : ¬ row.id ∈ acc.map Payment.id := by
          intro hmem
          rcases List.mem_map.mp hmem with ⟨q, hq, hid⟩
          exact hforall q hq hid
        cases hbase : parse_row_to_payment_base row with
        | none =>
            rw [go_unseen_fail rest hseen hbase] at h
            cases h
        | some b =>
            obtain ⟨hbid, hbinst⟩ := parse_base_fields hbase
            have hndc : ∀ c : Payment, c.id = row.id →
                ((acc ++ [c]).map Payment.id).Nodup := by
              intro c hc
              rw [List.map_append, List.nodup_append]
              refine ⟨hnd, by simp, ?_⟩
              intro y hy hy2
              simp only [List.map_cons, List.map_nil, List.mem_singleton] at hy2
              subst hy2
              rw [hc] at hy
              exact hnotin hy
            have hidsc : ∀ c : Payment, c.id = row.id →
                (acc ++ [c]).map Payment.id = acc.map Payment.id ++ [row.id] := by
              intro c hc
              rw [List.map_append]
              simp [hc]
            have hidsGoal :
                acc.map Payment.id ++
                    (firstSeen ((row :: rest).map JoinedRow.id)).filter
                      (fun y => ¬ y ∈ acc.map Payment.id) =
                  (acc.map Payment.id ++ [row.id]) ++
                    (firstSeen (rest.map JoinedRow.id)).filter
                      (fun y => ¬ y ∈ acc.map Payment.id ++ [row.id]) := by
              simp only [List.map_cons, firstSeen]
              rw [List.filter_cons_of_pos (by simpa using hnotin),
                filter_notmem_append, List.append_assoc, List.singleton_append]
            cases hi : try_parse_installment_from_joined_row row with
            | some i =>
                rw [go_unseen_some rest hseen hbase hi,
                  pushInstallment_append_last acc row.id i b hforall hbid] at h
                have hb2id :
                    ({ b with installments := b.installments ++ [i] } : Payment).id = row.id :=
                  hbid
                obtain ⟨ih1, ih2⟩ :=
                  ih (acc ++ [{ b with installments := b.installments ++ [i] }]) ps
                    (hndc _ hb2id) h
                constructor
                · rw [ih1, hidsc _ hb2id, hidsGoal]
                · intro p hp
                  obtain ⟨ihSome, ihNone⟩ := ih2 p hp
                  constructor
                  · intro q hq
                    have hpid : ¬ p.id = row.id := by
                      intro hEq
                      obtain ⟨hqmem, hqid⟩ := findPay_mem hq
                      exact hforall q hqmem (hEq ▸ hqid)
                    have hfp :
                        findPay (acc ++ [{ b with installments := b.installments ++ [i] }]) p.id =
                          some q := by
                      rw [findPay_append_ne _ _ _ (fun hEq => hpid ((hb2id ▸ hEq).symm ▸ rfl))]
                      exact hq
                    rw [rowInsts_cons_ne rest (fun hEq => hpid hEq.symm)]
                    exact ihSome q hfp
                  · intro hq
                    by_cases hpid : p.id = row.id
                    · have hfp :
                          findPay (acc ++ [{ b with installments := b.installments ++ [i] }]) p.id =
                            some { b with installments := b.installments ++ [i] } := by
                        rw [hpid]
                        exact findPay_append_self acc _ row.id hforall hb2id
                      have hp2 : p = withInsts b ((b.installments ++ [i]) ++ rowInsts rest p.id) :=
                        ihSome _ hfp
                      refine ⟨row, b, List.find?_cons_of_pos _ (by simpa using hpid.symm),
                        hbase, ?_⟩
                      rw [rowInsts_cons_eq rest hpid.symm, hi]
                      exact hp2.trans (by rw [hbinst]; rfl)
                    · have hfp :
                          findPay (acc ++ [{ b with installments := b.installments ++ [i] }]) p.id =
                            none := by
                        rw [findPay_append_ne _ _ _ (fun hEq => hpid ((hb2id ▸ hEq).symm ▸ rfl))]
                        exact hq
                      rcases ihNone hfp with ⟨r, b2, hfind, hb2, hpeq⟩
                      refine ⟨r, b2, ?_, hb2, ?_⟩
                      · rw [List.find?_cons_of_neg _ (by simpa using fun hEq => hpid hEq.symm)]
                        exact hfind
                      · rw [rowInsts_cons_ne rest (fun hEq => hpid hEq.symm)]
                        exact hpeq
            | none =>
                rw [go_unseen_none rest hseen hbase hi] at h
                obtain ⟨ih1, ih2⟩ := ih (acc ++ [b]) ps (hndc b hbid) h
                constructor
                · rw [ih1, hidsc b hbid, hidsGoal]
                · intro p hp
                  obtain ⟨ihSome, ihNone⟩ := ih2 p hp
                  constructor
                  · intro q hq
                    have hpid : ¬ p.id = row.id := by
                      intro hEq
                      obtain ⟨hqmem, hqid⟩ := findPay_mem hq
                      exact hforall q hqmem (hEq ▸ hqid)
                    have hfp : findPay (acc ++ [b]) p.id = some q := by
                      rw [findPay_append_ne _ _ _ (fun hEq => hpid ((hbid ▸ hEq).symm ▸ rfl))]
                      exact hq
                    rw [rowInsts_cons_ne rest (fun hEq => hpid hEq.symm)]
                    exact ihSome q hfp
                  · intro hq
                    by_cases hpid : p.id = row.id
                    · have hfp : findPay (acc ++ [b]) p.id = some b := by
                        rw [hpid]
                        exact findPay_append_self acc b row.id hforall hbid
                      have hp2 : p = withInsts b (b.installments ++ rowInsts rest p.id) :=
                        ihSome b hfp
                      refine ⟨row, b, List.find?_cons_of_pos _ (by simpa using hpid.symm),
                        hbase, ?_⟩
                      rw [rowInsts_cons_eq rest hpid.symm, hi]
                      exact hp2.trans (by rw [hbinst]; rfl)
                    · have hfp : findPay (acc ++ [b]) p.id = none := by
                        rw [findPay_append_ne _ _ _ (fun hEq => hpid ((hbid ▸ hEq).symm ▸ rfl))]
                        exact hq
                      rcases ihNone hfp with ⟨r, b2, hfind, hb2, hpeq⟩
                      refine ⟨r, b2, ?_, hb2, ?_⟩
                      · rw [List.find?_cons_of_neg _ (by simpa using fun hEq => hpid hEq.symm)]
                        exact hfind
                      · rw [rowInsts_cons_ne rest (fun hEq => hpid hEq.symm)]
                        exact hpeq

lemma mem_firstSeen (l : List String) (y : String) : y ∈ firstSeen l ↔ y ∈ l := by
  induction l with
  | nil => simp [firstSeen]
  | cons x xs ih =>
      simp only [firstSeen, List.mem_cons, List.mem_filter]
      constructor
      · rintro (rfl | ⟨hy, _⟩)
        · exact .inl rfl
        · exact .inr (ih.mp hy)
      · rintro (rfl | hy)
        · exact .inl rfl
        · by_cases hyx : y = x
          · exact .inl hyx
          · exact .inr ⟨ih.mpr hy, by simpa using hyx⟩

lemma firstSeen_nodup (l : List String) : (firstSeen l).Nodup := by
  induction l with
  | nil => simp [firstSeen]
  | cons x xs ih =>
      simp only [firstSeen, List.nodup_cons]
      refine ⟨?_, ih.filter _⟩
      intro hx
      have := (List.mem_filter.mp hx).2
      simp at this

/-- **C1.** The row-aggregation algorithm, applied to any flat sequence of
joined rows, emits exactly one `Payment` per distinct payment id, in the
order in which each id first appears in the row sequence; each payment's
fields are decoded from the first row of its id, and its installment list
is exactly the installments parsed from the rows of that id whose
installment columns are non-null, appended in row order (`rowInsts`). -/
theorem c1_row_aggregation (rows : List JoinedRow) (ps : List Payment)
    (h : parse_grouped_rows_to_payments rows = .ok ps) :
    ps.map Payment.id = firstSeen (rows.map JoinedRow.id) ∧
    (ps.map Payment.id).Nodup ∧
    (∀ i, i ∈ ps.map Payment.id ↔ i ∈ rows.map JoinedRow.id) ∧
    ∀ p ∈ ps, ∃ r b,
      rows.find? (fun r2 => r2.id = p.id) = some r ∧
      parse_row_to_payment_base r = some b ∧
      p = withInsts b (rowInsts rows p.id) := by
  obtain ⟨h1, h2⟩ := parse_grouped_go_spec rows [] ps (by simp) h
  have hids : ps.map Payment.id = firstSeen (rows.map JoinedRow.id) := by
    rw [h1]
    simp
  refine ⟨hids, ?_, ?_, ?_⟩
  · rw [hids]
    exact firstSeen_nodup _
  · intro i
    rw [hids]
    exact mem_firstSeen _ i
  · intro p hp
    exact (h2 p hp).2 rfl

def c1rows : List JoinedRow :=
  [ { id := "PMT-A", transaction_id := "T1", amount := 10, method := "CASH",
      status := "CICILAN", payment_date := 0, due_date := none,
      inst := some { inst_id := "I1", inst_payment_id := "PMT-A",
                     inst_amount := 4, inst_date := 2 } },
    { id := "PMT-B", transaction_id := "T2", amount := 5, method := "E_WALLET",
      status := "LUNAS", payment_date := 1, due_date := some 9, inst := none },
    { id := "PMT-A", transaction_id := "T1", amount := 10, method := "CASH",
      status := "CICILAN", payment_date := 0, due_date := none,
      inst := some { inst_id := "I2", inst_payment_id := "PMT-A",
                     inst_amount := 6, inst_date := 3 } } ]

def c1ps : List Payment :=
  [ { id := "PMT-A", transaction_id := "T1", amount := 10, method := .Cash,
      status := .Installment, payment_date := 0, due_date := none,
      installments :=
        [ { id := "I1", payment_id := "PMT-A", amount := 4, payment_date := 2 },
          { id := "I2", payment_id := "PMT-A", amount := 6, payment_date := 3 } ] },
    { id := "PMT-B", transaction_id := "T2", amount := 5, method := .EWallet,
      status := .Paid, payment_date := 1, due_date := some 9, installments := [] } ]

/-- Witness for C1 at a concrete three-row result set with join fan-out. -/
theorem c1_row_aggregation_witness :
    parse_grouped_rows_to_payments c1rows = .ok c1ps ∧
      (c1ps.map Payment.id = firstSeen (c1rows.map JoinedRow.id) ∧
       (c1ps.map Payment.id).Nodup ∧
       (∀ i, i ∈ c1ps.map Payment.id ↔ i ∈ c1rows.map JoinedRow.id) ∧
       ∀ p ∈ c1ps, ∃ r b,
         c1rows.find? (fun r2 => r2.id = p.id) = some r ∧
         parse_row_to_payment_base r = some b ∧
         p = withInsts b (rowInsts c1rows p.id)) := by
  have h : parse_grouped_rows_to_payments c1rows = .ok c1ps := by rfl
  exact ⟨h, c1_row_aggregation c1rows c1ps h⟩

/-! ## Group processing: the batch rows of one payment -/

/-- Consuming the remaining join rows of an id already seeded at the end of
the accumulator appends their installments to that entry. -/
lemma go_same_id (pr : PaymentRow) (rest : List JoinedRow) :
    ∀ (js : List InstallmentRow) (acc : List Payment) (c : Payment),
      c.id = pr.id → (∀ q ∈ acc, ¬ q.id = pr.id) →
      parse_grouped_go ((js.map fun j => mkJoined pr (some (instColsOf j))) ++ rest)
          (acc ++ [c]) =
        parse_grouped_go rest
          (acc ++ [withInsts c (c.installments ++ js.map rowToInstallment)]) := by
  intro js
  induction js with
  | nil =>
      intro acc c hc hacc
      show parse_grouped_go rest (acc ++ [c]) =
        parse_grouped_go rest (acc ++ [withInsts c (c.installments ++ [])])
      rw [List.append_nil]
      rfl
  | cons j js ihj =>
      intro acc c hc hacc
      have hseen : ((acc ++ [c]).any
          fun p => p.id = (mkJoined pr (some (instColsOf j))).id) = true := by
        apply List.any_eq_true.mpr
        exact ⟨c, List.mem_append_right _ (List.mem_singleton_self c), by simp [hc]⟩
      have hi : try_parse_installment_from_joined_row (mkJoined pr (some (instColsOf j))) =
          some (rowToInstallment j) := rfl
      show parse_grouped_go
          (mkJoined pr (some (instColsOf j)) ::
            ((js.map fun j2 => mkJoined pr (some (instColsOf j2))) ++ rest))
          (acc ++ [c]) = _
      rw [go_seen_some _ hseen hi, mkJoined_id,
        pushInstallment_append_last acc pr.id (rowToInstallment j) c hacc hc,
        ihj acc { c with installments := c.installments ++ [rowToInstallment j] } hc hacc]
      show parse_grouped_go rest
          (acc ++ [withInsts c ((c.installments ++ [rowToInstallment j]) ++
            js.map rowToInstallment)]) = _
      rw [List.append_assoc, List.singleton_append]
      rfl

/-- Consuming all join rows of one fresh payment row seeds one entry
carrying that payment's decoded base and its installment rows in order. -/
lemma go_group (pr : PaymentRow) (insts : List InstallmentRow) (rest : List JoinedRow)
    (acc : List Payment) (b : Payment)
    (hb : basePaymentOpt pr = some b)
    (hacc : ∀ q ∈ acc, ¬ q.id = pr.id) :
    parse_grouped_go (leftJoinRows pr insts ++ rest) acc =
      parse_grouped_go rest (acc ++ [withInsts b (insts.map rowToInstallment)]) := by
  have hbid : b.id = pr.id := basePaymentOpt_id hb
  have hbinst : b.installments = [] := basePaymentOpt_installments hb
  have hseen : ∀ o : Option InstCols,
      ¬ (acc.any fun p => p.id = (mkJoined pr o).id) = true := by
    intro o hany
    rcases List.any_eq_true.mp hany with ⟨q, hq, hid⟩
    simp only [mkJoined_id, decide_eq_true_eq] at hid
    exact hacc q hq hid
  cases insts with
  | nil =>
      have hi : try_parse_installment_from_joined_row (mkJoined pr none) = none := rfl
      rw [show leftJoinRows pr [] = [mkJoined pr none] from rfl, List.singleton_append,
        go_unseen_none rest (hseen none) (parse_base_mkJoined pr none ▸ hb) hi]
      have : withInsts b ([] : List Installment) = b := by
        rw [← hbinst]
        rfl
      rw [show (([] : List InstallmentRow).map rowToInstallment) = [] from rfl, this]
  | cons j js =>
      have hi : try_parse_installment_from_joined_row (mkJoined pr (some (instColsOf j))) =
          some (rowToInstallment j) := rfl
      have hrows : leftJoinRows pr (j :: js) =
          mkJoined pr (some (instColsOf j)) ::
            (js.map fun j2 => mkJoined pr (some (instColsOf j2))) := by
        simp [leftJoinRows]
      rw [hrows, List.cons_append,
        go_unseen_some _ (hseen _) (parse_base_mkJoined pr _ ▸ hb) hi, mkJoined_id,
        pushInstallment_append_last acc pr.id (rowToInstallment j) b hacc hbid,
        go_same_id pr rest js acc
          { b with installments := b.installments ++ [rowToInstallment j] } hbid hacc]
      show parse_grouped_go rest
          (acc ++ [withInsts b ((b.installments ++ [rowToInstallment j]) ++
            js.map rowToInstallment)]) = _
      rw [hbinst, List.nil_append]
      rfl

/-- The per-payment installment rows used by the batch query and by
`find_by_id`: the installments of that id, date-sorted. -/
def dbInstsOf (db : DB) (pr : PaymentRow) : List InstallmentRow :=
  sortInstRows (db.installments.filter fun i => i.payment_id = pr.id)

lemma basePaymentOpt_isSome {pr : PaymentRow}
    (hm : (parse_payment_method pr.method).isSome)
    (hs : (PaymentStatus.from_string pr.status).isSome) :
    (basePaymentOpt pr).isSome := by
  rcases Option.isSome_iff_exists.mp hm with ⟨m, hm2⟩
  rcases Option.isSome_iff_exists.mp hs with ⟨s, hs2⟩
  unfold basePaymentOpt parse_row_to_payment_base
  simp [mkJoined, hm2, hs2]

/-- Aggregating the concatenated groups of decodable payment rows with
distinct ids yields one payment per row. -/
lemma go_flatMap (f : PaymentRow → List InstallmentRow) :
    ∀ (prs : List PaymentRow) (acc : List Payment),
      (prs.map PaymentRow.id).Nodup →
      (∀ pr ∈ prs, ∀ q ∈ acc, ¬ q.id = pr.id) →
      (∀ pr ∈ prs, (basePaymentOpt pr).isSome) →
      parse_grouped_go (prs.flatMap fun pr => leftJoinRows pr (f pr)) acc =
        .ok (acc ++ prs.filterMap fun pr =>
          (basePaymentOpt pr).map fun b => withInsts b ((f pr).map rowToInstallment)) := by
  intro prs
  induction prs with
  | nil =>
      intro acc _ _ _
      show (Except.ok acc : Except RepoErr (List Payment)) = .ok (acc ++ [])
      rw [List.append_nil]
  | cons pr prs ihp =>
      intro acc hnd hdisj hsome
      rcases Option.isSome_iff_exists.mp (hsome pr (List.mem_cons_self pr prs)) with ⟨b, hb⟩
      rw [List.flatMap_cons,
        go_group pr (f pr) _ acc b hb (hdisj pr (List.mem_cons_self pr prs))]
      simp only [List.map_cons, List.nodup_cons] at hnd
      rw [ihp (acc ++ [withInsts b ((f pr).map rowToInstallment)]) hnd.2 ?_
        (fun pr2 h2 => hsome pr2 (List.mem_cons_of_mem pr h2))]
      · rw [List.filterMap_cons, hb]
        simp only [Option.map_some']
        rw [List.append_assoc, List.singleton_append]
      · intro pr2 h2 q hq
        rcases List.mem_append.mp hq with hq1 | hq2
        · exact hdisj pr2 (List.mem_cons_of_mem pr h2) q hq1
        · rw [List.mem_singleton.mp hq2]
          simp only [withInsts_id]
          rw [basePaymentOpt_id hb]
          intro hEq
          exact hnd.1 (hEq ▸ List.mem_map_of_mem PaymentRow.id h2)

lemma filterMap_rowPayment_map_id (db : DB) :
    ∀ l : List PaymentRow, (∀ pr ∈ l, (basePaymentOpt pr).isSome) →
      ((l.filterMap fun pr =>
          (basePaymentOpt pr).map fun b =>
            withInsts b ((dbInstsOf db pr).map rowToInstallment)).map Payment.id) =
        l.map PaymentRow.id := by
  intro l
  induction l with
  | nil => intro _; rfl
  | cons pr rest ih =>
      intro hall
      rcases Option.isSome_iff_exists.mp (hall pr (List.mem_cons_self pr rest)) with ⟨b, hb⟩
      rw [List.filterMap_cons, hb]
      simp only [Option.map_some']
      rw [List.map_cons, List.map_cons,
        ih fun q hq => hall q (List.mem_cons_of_mem pr hq),
        withInsts_id, basePaymentOpt_id hb]

/-- With distinct primary keys, re-filtering the table on the matched id
set recovers exactly the filtered rows. -/
lemma filter_contains_ids {l : List PaymentRow} (hnd : (l.map PaymentRow.id).Nodup)
    (p : PaymentRow → Bool) :
    (l.filter fun r => ((l.filter p).map fun r2 => r2.id).contains r.id) = l.filter p := by
  apply List.filter_congr
  intro r hr
  by_cases hp : p r = true
  · have hmem : r.id ∈ (l.filter p).map fun r2 => r2.id :=
      List.mem_map_of_mem _ (List.mem_filter.mpr ⟨hr, hp⟩)
    rw [hp]
    exact List.elem_iff.mpr hmem
  · have hmem : ¬ r.id ∈ (l.filter p).map fun r2 => r2.id := by
      intro hmem
      rcases List.mem_map.mp hmem with ⟨r2, hr2, hid⟩
      have hr2l : r2 ∈ l := (List.mem_filter.mp hr2).1
      have heq : r2 = r := nodup_map_inj hnd hr2l hr hid
      exact hp (heq ▸ (List.mem_filter.mp hr2).2)
    rw [Bool.eq_false_iff.mpr hp]
    exact Bool.eq_false_iff.mpr fun hc => hmem (List.elem_iff.mp hc)

/-- Closed form of `find_all` on a well-formed database with distinct
primary keys: one payment per matched row, in id order, each carrying its
date-sorted installments. -/
lemma find_all_ok (db : DB) (f : Option Filters)
    (hwf : ∀ r ∈ db.payments, (parse_payment_method r.method).isSome ∧
        (PaymentStatus.from_string r.status).isSome)
    (hnd : (db.payments.map PaymentRow.id).Nodup) :
    find_all db f =
      .ok ((sortPayRows (db.payments.filter (filterPred f))).filterMap fun pr =>
        (basePaymentOpt pr).map fun b =>
          withInsts b ((dbInstsOf db pr).map rowToInstallment)) := by
  have hsorted : ∀ pr ∈ sortPayRows (db.payments.filter (filterPred f)), pr ∈ db.payments :=
    fun pr hpr =>
      (List.mem_filter.mp ((List.perm_insertionSort payRowLe _).mem_iff.mp hpr)).1
  by_cases hempty : (db.payments.filter (filterPred f)).isEmpty = true
  · have hnil : db.payments.filter (filterPred f) = [] := List.isEmpty_iff.mp hempty
    unfold find_all
    rw [hnil]
    rfl
  · unfold find_all
    simp only [hempty, if_false, Bool.false_eq_true]
    rw [show batchRows db ((db.payments.filter (filterPred f)).map fun r => r.id) =
        (sortPayRows (db.payments.filter fun r =>
          ((db.payments.filter (filterPred f)).map fun r2 => r2.id).contains r.id)).flatMap
          (fun pr => leftJoinRows pr (dbInstsOf db pr)) from rfl,
      filter_contains_ids hnd (filterPred f)]
    show parse_grouped_go _ [] = _
    rw [go_flatMap (dbInstsOf db) (sortPayRows (db.payments.filter (filterPred f))) []
      ?_ (fun pr _ q hq => absurd hq (List.not_mem_nil q)) ?_]
    · rw [List.nil_append]
    · have h1 : ((db.payments.filter (filterPred f)).map PaymentRow.id).Nodup :=
        List.Nodup.sublist (List.Sublist.map PaymentRow.id (List.filter_sublist _)) hnd
      exact (List.Perm.nodup_iff
        ((List.perm_insertionSort payRowLe _).map PaymentRow.id)).mpr h1
    · intro pr hpr
      rcases hwf pr (hsorted pr hpr) with ⟨hm, hs⟩
      exact basePaymentOpt_isSome hm hs

/-- **C2.** Batch equivalence of the two aggregation code paths: on any
database whose stored enums decode and whose primary keys are distinct,
`find_all` succeeds, returns exactly one payment per payment row matched by
the filter (same id multiset), and every returned payment — fields and
installment list alike — is precisely what the single-id path
`find_by_id` returns for its id. -/
theorem c2_batch_equivalence (db : DB) (f : Option Filters)
    (hwf : ∀ r ∈ db.payments, (parse_payment_method r.method).isSome ∧
        (PaymentStatus.from_string r.status).isSome)
    (hnd : (db.payments.map PaymentRow.id).Nodup) :
    ∃ ps, find_all db f = .ok ps ∧
      (ps.map Payment.id).Perm ((db.payments.filter (filterPred f)).map PaymentRow.id) ∧
      ∀ p ∈ ps, find_by_id db p.id = .ok p := by
  have hsome : ∀ pr ∈ sortPayRows (db.payments.filter (filterPred f)),
      (basePaymentOpt pr).isSome := by
    intro pr hpr
    have hmem : pr ∈ db.payments :=
      (List.mem_filter.mp ((List.perm_insertionSort payRowLe _).mem_iff.mp hpr)).1
    rcases hwf pr hmem with ⟨hm, hs⟩
    exact basePaymentOpt_isSome hm hs
  refine ⟨_, find_all_ok db f hwf hnd, ?_, ?_⟩
  · rw [filterMap_rowPayment_map_id db _ hsome]
    exact (List.perm_insertionSort payRowLe _).map PaymentRow.id
  · intro p hp
    rcases List.mem_filterMap.mp hp with ⟨pr, hpr, hmap⟩
    rcases Option.map_eq_some'.mp hmap with ⟨b, hb, hweq⟩
    have hprdb : pr ∈ db.payments :=
      (List.mem_filter.mp ((List.perm_insertionSort payRowLe _).mem_iff.mp hpr)).1
    have hpid : p.id = pr.id := by
      rw [← hweq, withInsts_id, basePaymentOpt_id hb]
    rw [hpid, find_by_id_eq db pr b (filter_id_eq_single hnd hprdb) hb, ← hweq]
    rfl

def c2db : DB :=
  { payments :=
      [ { id := "PMT-B", transaction_id := "T1", amount := 1, method := "CASH",
          status := "LUNAS", payment_date := 0, due_date := none },
        { id := "PMT-A", transaction_id := "T2", amount := 2, method := "E_WALLET",
          status := "CICILAN", payment_date := 1, due_date := some 5 } ],
    installments :=
      [ { id := "I2", payment_id := "PMT-A", amount := 1, payment_date := 8 },
        { id := "I1", payment_id := "PMT-A", amount := 1, payment_date := 2 } ] }

/-- Witness for C2 on a concrete two-payment database with an unfiltered
query. -/
theorem c2_batch_equivalence_witness :
    ∃ ps, find_all c2db none = .ok ps ∧
      (ps.map Payment.id).Perm
        ((c2db.payments.filter (filterPred none)).map PaymentRow.id) ∧
      ∀ p ∈ ps, find_by_id c2db p.id = .ok p :=
  c2_batch_equivalence c2db none (by decide) (by decide)

/-! ## Lemmas about the repository writes -/

lemma insertPaymentStmt_ok {db : DB} {p : Payment} {db1 : DB}
    (h : insertPaymentStmt db p = .ok db1) :
    db1 = { db with payments := db.payments ++ [paymentToRow p] } ∧
    ∀ r ∈ db.payments, ¬ r.id = p.id := by
  unfold insertPaymentStmt at h
  by_cases hany : (db.payments.any fun r => r.id = p.id) = true
  · rw [if_pos hany] at h
    cases h
  · rw [if_neg hany] at h
    cases h
    refine ⟨rfl, ?_⟩
    intro r hr hid
    exact hany (List.any_eq_true.mpr ⟨r, hr, by simpa using hid⟩)

lemma insertInstallmentStmt_ok {db : DB} {i : Installment} {db1 : DB}
    (h : insertInstallmentStmt db i = .ok db1) :
    db1 = { db with installments := db.installments ++ [installmentToRow i] } := by
  unfold insertInstallmentStmt at h
  by_cases hany : (db.installments.any fun r => r.id = i.id) = true
  · rw [if_pos hany] at h
    cases h
  · rw [if_neg hany] at h
    cases h
    rfl

lemma insertInstallmentStmt_fresh {db : DB} {i : Installment}
    (h : ∀ r ∈ db.installments, ¬ r.id = i.id) :
    insertInstallmentStmt db i =
      .ok { db with installments := db.installments ++ [installmentToRow i] } := by
  unfold insertInstallmentStmt
  rw [if_neg]
  intro hany
  rcases List.any_eq_true.mp hany with ⟨r, hr, hid⟩
  exact h r hr (by simpa using hid)

lemma batchInsert_shape :
    ∀ (l : List Installment) (db db2 : DB),
      batchInsertInstallments db l = .ok db2 →
      db2.payments = db.payments ∧
      db2.installments = db.installments ++ l.map installmentToRow := by
  intro l
  induction l with
  | nil =>
      intro db db2 h
      cases h
      exact ⟨rfl, by rw [List.map_nil, List.append_nil]⟩
  | cons i rest ih =>
      intro db db2 h
      unfold batchInsertInstallments at h
      cases hins : insertInstallmentStmt db i with
      | error e => rw [hins] at h; cases h
      | ok db1 =>
          rw [hins] at h
          rcases ih db1 db2 h with ⟨h1, h2⟩
          rw [insertInstallmentStmt_ok hins] at h1 h2
          refine ⟨h1, ?_⟩
          rw [h2]
          simp [List.append_assoc]

lemma batchInsert_ok :
    ∀ (l : List Installment) (db : DB),
      (l.map Installment.id).Nodup →
      (∀ i ∈ l, ∀ r ∈ db.installments, ¬ r.id = i.id) →
      batchInsertInstallments db l =
        .ok { db with installments := db.installments ++ l.map installmentToRow } := by
  intro l
  induction l with
  | nil =>
      intro db _ _
      show Except.ok db = _
      rw [show db.installments ++ ([] : List Installment).map installmentToRow =
        db.installments by rw [List.map_nil, List.append_nil]]
  | cons i rest ih =>
      intro db hnd hfresh
      unfold batchInsertInstallments
      rw [insertInstallmentStmt_fresh fun r hr => hfresh i (List.mem_cons_self i rest) r hr]
      simp only [List.map_cons, List.nodup_cons] at hnd
      show batchInsertInstallments
        { db with installments := db.installments ++ [installmentToRow i] } rest = _
      rw [ih _ hnd.2 ?_]
      · rw [show (db.installments ++ [installmentToRow i]) ++ rest.map installmentToRow =
          db.installments ++ (i :: rest).map installmentToRow by
            simp [List.append_assoc]]
      · intro i2 h2 r hr
        rcases List.mem_append.mp hr with hr1 | hr2
        · exact hfresh i2 (List.mem_cons_of_mem i h2) r hr1
        · rw [List.mem_singleton.mp hr2]
          show ¬ i.id = i2.id
          intro hEq
          exact hnd.1 (hEq ▸ List.mem_map_of_mem Installment.id h2)

/-- Date-sorting commutes with row serialisation (the sort key is the
date, which serialisation preserves). -/
lemma sortInstRows_map (l : List Installment) :
    sortInstRows (l.map installmentToRow) = (sortInstallments l).map installmentToRow := by
  unfold sortInstRows sortInstallments
  induction l with
  | nil => rfl
  | cons i rest ih =>
      simp only [List.map_cons, List.insertionSort]
      rw [ih]
      generalize List.insertionSort instLe rest = s
      induction s with
      | nil => rfl
      | cons x xs ihs =>
          simp only [List.map_cons, List.orderedInsert]
          by_cases hle : instLe i x
          · rw [if_pos hle, if_pos (show instRowLe (installmentToRow i) (installmentToRow x)
              from hle)]
            rfl
          · rw [if_neg hle, if_neg (show ¬ instRowLe (installmentToRow i) (installmentToRow x)
              from hle), ihs]
            rfl

lemma map_row_roundtrip (l : List Installment) :
    (l.map installmentToRow).map rowToInstallment = l := by
  rw [List.map_map]
  have : rowToInstallment ∘ installmentToRow = id := by
    funext i
    rfl
  rw [this, List.map_id]

/-- A payment that passes `validate_payment` has every installment linked
to it. -/
lemma validate_payment_pid {p : Payment} (hv : validate_payment p = []) :
    ∀ i ∈ p.installments, i.payment_id = p.id := by
  unfold validate_payment at hv
  rcases List.append_eq_nil.mp hv with ⟨hv1, hv5⟩
  rcases List.append_eq_nil.mp hv1 with ⟨hv2, _⟩
  clear hv hv1 hv2
  suffices h : ∀ (l : List Installment) (n : Nat),
      ((List.enumFrom n l).flatMap fun ni =>
        (if ni.2.amount ≤ 0 then
           ["Installment " ++ toString (ni.1 + 1) ++ " amount must be greater than 0"]
         else []) ++
        (if ¬ ni.2.payment_id = p.id then
           ["Installment " ++ toString (ni.1 + 1) ++ " payment_id does not match payment ID"]
         else [])) = [] →
      ∀ i ∈ l, i.payment_id = p.id by
    exact h p.installments 0 hv5
  intro l
  induction l with
  | nil => intro n _ i hi; cases hi
  | cons j rest ihl =>
      intro n hflat i hi
      rw [List.enumFrom_cons, List.flatMap_cons] at hflat
      rcases List.append_eq_nil.mp hflat with ⟨hj, hrest⟩
      rcases List.mem_cons.mp hi with rfl | hi2
      · rcases List.append_eq_nil.mp hj with ⟨_, hj2⟩
        by_cases hpid : i.payment_id = p.id
        · exact hpid
        · rw [if_pos hpid] at hj2
          cases hj2
      · exact ihl (n + 1) hrest i hi2

/-- **C3.** Round trip: for a valid payment whose ids are fresh for the
database (and whose installments are its own), `create` succeeds and the
re-read — `find_by_id` on the new state — returns a payment equal to `p`
in every scalar field, whose installment list is a permutation of
`p.installments` ordered by `payment_date` ascending. -/
theorem c3_round_trip (db : DB) (p : Payment)
    (hvalid : validate_payment p = [])
    (hfreshP : ∀ r ∈ db.payments, ¬ r.id = p.id)
    (hinstNd : (p.installments.map Installment.id).Nodup)
    (hfreshI : ∀ i ∈ p.installments, ∀ r ∈ db.installments, ¬ r.id = i.id)
    (hstray : ∀ r ∈ db.installments, ¬ r.payment_id = p.id) :
    ∃ db2 found,
      opt_create db p = (db2, .ok found) ∧
      find_by_id db2 p.id = .ok found ∧
      found.id = p.id ∧ found.transaction_id = p.transaction_id ∧
      found.amount = p.amount ∧ found.method = p.method ∧
      found.status = p.status ∧ found.payment_date = p.payment_date ∧
      found.due_date = p.due_date ∧
      found.installments.Perm p.installments ∧
      List.Pairwise instLe found.installments := by
  have hpid := validate_payment_pid hvalid
  have hins : insertPaymentStmt db p =
      .ok { db with payments := db.payments ++ [paymentToRow p] } := by
    unfold insertPaymentStmt
    rw [if_neg]
    intro hany
    rcases List.any_eq_true.mp hany with ⟨r, hr, hid⟩
    exact hfreshP r hr (by simpa using hid)
  have htx : createTx db p =
      .ok { payments := db.payments ++ [paymentToRow p],
            installments := db.installments ++ p.installments.map installmentToRow } := by
    unfold createTx
    rw [hins]
    show (if p.installments.isEmpty = true then
            Except.ok ({ payments := db.payments ++ [paymentToRow p],
                         installments := db.installments } : DB)
          else batchInsertInstallments
            { payments := db.payments ++ [paymentToRow p], installments := db.installments }
            p.installments) = _
    by_cases hemp : p.installments.isEmpty = true
    · rw [if_pos hemp, List.isEmpty_iff.mp hemp]
      rw [show db.installments ++ ([] : List Installment).map installmentToRow =
        db.installments by rw [List.map_nil, List.append_nil]]
    · rw [if_neg hemp]
      exact batchInsert_ok p.installments _ hinstNd hfreshI
  have hfilterP :
      ({ payments := db.payments ++ [paymentToRow p],
         installments := db.installments ++ p.installments.map installmentToRow } : DB).payments.filter
        (fun r => r.id = (paymentToRow p).id) = [paymentToRow p] := by
    show (db.payments ++ [paymentToRow p]).filter (fun r => r.id = p.id) = _
    rw [List.filter_append,
      List.filter_eq_nil_iff.mpr fun r hr => by simpa using hfreshP r hr,
      List.nil_append, List.filter_cons_of_pos (by simp [paymentToRow])]
    rfl
  have hfiltI :
      ({ payments := db.payments ++ [paymentToRow p],
         installments := db.installments ++ p.installments.map installmentToRow } : DB).installments.filter
        (fun i2 => i2.payment_id = (paymentToRow p).id) = p.installments.map installmentToRow := by
    show (db.installments ++ p.installments.map installmentToRow).filter
        (fun i2 => i2.payment_id = p.id) = _
    rw [List.filter_append,
      List.filter_eq_nil_iff.mpr fun r hr => by simpa using hstray r hr,
      List.nil_append, List.filter_eq_self.mpr]
    intro r hr
    rcases List.mem_map.mp hr with ⟨i, hi, rfl⟩
    simpa [installmentToRow] using hpid i hi
  have hfound := find_by_id_eq _ (paymentToRow p) (withInsts p []) hfilterP
    (basePaymentOpt_paymentToRow p)
  rw [hfiltI, sortInstRows_map, map_row_roundtrip, withInsts_withInsts] at hfound
  have hfound2 : find_by_id
      ({ payments := db.payments ++ [paymentToRow p],
         installments := db.installments ++ p.installments.map installmentToRow } : DB) p.id =
      .ok (withInsts p (sortInstallments p.installments)) := hfound
  refine ⟨_, withInsts p (sortInstallments p.installments), ?_, hfound2, rfl, rfl, rfl, rfl,
    rfl, rfl, rfl, ?_, ?_⟩
  · unfold opt_create
    rw [htx]
    show (match find_by_id
        ({ payments := db.payments ++ [paymentToRow p],
           installments := db.installments ++ p.installments.map installmentToRow } : DB) p.id with
      | Except.error e =>
          (({ payments := db.payments ++ [paymentToRow p],
              installments := db.installments ++ p.installments.map installmentToRow } : DB),
            Except.error e)
      | Except.ok q =>
          (({ payments := db.payments ++ [paymentToRow p],
              installments := db.installments ++ p.installments.map installmentToRow } : DB),
            Except.ok q)) = _
    rw [hfound2]
  · exact List.perm_insertionSort instLe p.installments
  · exact List.sorted_insertionSort instLe p.installments

def c3p : Payment :=
  { id := "PMT-9", transaction_id := "TXN-9", amount := 1000, method := .Cash,
    status := .Installment, payment_date := 3,
    installments :=
      [ { id := "INST-B", payment_id := "PMT-9", amount := 700, payment_date := 9 },
        { id := "INST-A", payment_id := "PMT-9", amount := 300, payment_date := 4 } ],
    due_date := some 99 }

/-- Witness for C3 on an empty database and a payment with two unsorted
installments. -/
theorem c3_round_trip_witness :
    ∃ db2 found,
      opt_create { payments := [], installments := [] } c3p = (db2, .ok found) ∧
      find_by_id db2 c3p.id = .ok found ∧
      found.id = c3p.id ∧ found.transaction_id = c3p.transaction_id ∧
      found.amount = c3p.amount ∧ found.method = c3p.method ∧
      found.status = c3p.status ∧ found.payment_date = c3p.payment_date ∧
      found.due_date = c3p.due_date ∧
      found.installments.Perm c3p.installments ∧
      List.Pairwise instLe found.installments :=
  c3_round_trip { payments := [], installments := [] } c3p (by rfl) (by simp)
    (by decide) (by simp) (by simp)

/-- **C5 (amended).** The optimized repository's `create` is atomic: when
it reports an error from the transaction, the database is unchanged; when
it succeeds, the payment row and every installment row have been
persisted. -/
theorem c5_create_atomicity (db : DB) (p : Payment) :
    (∀ e, (opt_create db p).2 = .error e → (opt_create db p).1 = db) ∧
    (∀ q, (opt_create db p).2 = .ok q →
        (opt_create db p).1.payments = db.payments ++ [paymentToRow p] ∧
        (opt_create db p).1.installments =
          db.installments ++ p.installments.map installmentToRow) := by
  cases htx : createTx db p with
  | error e =>
      have hoc : opt_create db p = (db, .error e) := by
        unfold opt_create
        rw [htx]
      rw [hoc]
      exact ⟨fun _ _ => rfl, fun q hq => by cases hq⟩
  | ok db2 =>
      obtain ⟨hpay, hinst, hfreshP⟩ :
          db2.payments = db.payments ++ [paymentToRow p] ∧
          db2.installments = db.installments ++ p.installments.map installmentToRow ∧
          ∀ r ∈ db.payments, ¬ r.id = p.id := by
        unfold createTx at htx
        cases hins : insertPaymentStmt db p with
        | error e =>
            rw [hins] at htx
            cases htx
        | ok db1 =>
            rw [hins] at htx
            obtain ⟨hdb1, hfr⟩ := insertPaymentStmt_ok hins
            subst hdb1
            have htx2 : (if p.installments.isEmpty = true then
                Except.ok ({ payments := db.payments ++ [paymentToRow p],
                             installments := db.installments } : DB)
              else batchInsertInstallments
                { payments := db.payments ++ [paymentToRow p],
                  installments := db.installments }
                p.installments) = Except.ok db2 := htx
            by_cases hemp : p.installments.isEmpty = true
            · rw [if_pos hemp] at htx2
              cases htx2
              rw [List.isEmpty_iff.mp hemp]
              exact ⟨rfl, by rw [List.map_nil, List.append_nil], hfr⟩
            · rw [if_neg hemp] at htx2
              obtain ⟨h1, h2⟩ := batchInsert_shape _ _ _ htx2
              exact ⟨h1, h2, hfr⟩
      have hfilter : db2.payments.filter (fun r => r.id = (paymentToRow p).id) =
          [paymentToRow p] := by
        show db2.payments.filter (fun r => r.id = p.id) = _
        rw [hpay, List.filter_append,
          List.filter_eq_nil_iff.mpr fun r hr => by simpa using hfreshP r hr,
          List.nil_append, List.filter_cons_of_pos (by simp [paymentToRow])]
        rfl
      have hfound := find_by_id_eq db2 (paymentToRow p) (withInsts p []) hfilter
        (basePaymentOpt_paymentToRow p)
      have hfound2 : find_by_id db2 p.id =
          .ok (withInsts (withInsts p [])
            ((sortInstRows (db2.installments.filter
              fun i => i.payment_id = (paymentToRow p).id)).map rowToInstallment)) := hfound
      have hoc : opt_create db p = (db2,
          .ok (withInsts (withInsts p [])
            ((sortInstRows (db2.installments.filter
              fun i => i.payment_id = (paymentToRow p).id)).map rowToInstallment))) := by
        unfold opt_create
        rw [htx]
        show (match find_by_id db2 p.id with
          | Except.error e => (db2, Except.error e)
          | Except.ok q => (db2, Except.ok q)) = _
        rw [hfound2]
      rw [hoc]
      exact ⟨fun e he => (by cases he), fun q _ => ⟨hpay, hinst⟩⟩

def c5db : DB :=
  { payments := [],
    installments := [{ id := "INST-1", payment_id := "PMT-X", amount := 5, payment_date := 0 }] }

def c5p : Payment :=
  { id := "PMT-1", transaction_id := "TXN-1", amount := 10, method := .Cash,
    status := .Installment, payment_date := 0,
    installments := [{ id := "INST-1", payment_id := "PMT-1", amount := 5, payment_date := 0 }],
    due_date := none }

/-- Counterexample to C5 as stated: the naive repository's `create` runs
its inserts outside any transaction, so when the installment insert fails
(duplicate installment primary key `INST-1`) the call errors but the
payment row stays persisted — neither "all" nor "none". -/
theorem c5_counterexample :
    (naive_create c5db c5p).2 = .error .uniqueViolation ∧
    (naive_create c5db c5p).1.payments = c5db.payments ++ [paymentToRow c5p] ∧
    (naive_create c5db c5p).1.installments = c5db.installments :=
  ⟨rfl, rfl, rfl⟩

/-! ## Service-layer lemmas -/

lemma cacheGet_remove (cache : Cache) (id : String) :
    cacheGet (cacheRemove cache id) id = none := by
  unfold cacheGet cacheRemove
  induction cache with
  | nil => rfl
  | cons e rest ih =>
      by_cases he : e.1 = id
      · rw [List.filter_cons_of_neg (by simpa using he)]
        exact ih
      · rw [List.filter_cons_of_pos (by simpa using he),
          List.find?_cons_of_neg _ (by simpa using he)]
        exact ih

/-- A read never touches the database or the write counter. -/
lemma svcFetch_state (st : SvcState) (now : Int) (id : String) :
    ((svcFetchPayment st now id).2).db = st.db ∧
    ((svcFetchPayment st now id).2).writes = st.writes := by
  unfold svcFetchPayment
  cases hf : find_by_id st.db id with
  | error e => cases e <;> exact ⟨rfl, rfl⟩
  | ok p => exact ⟨rfl, rfl⟩

lemma svc_get_state (st : SvcState) (now : Int) (id : String) :
    ((svc_get_payment_by_id st now id).2).db = st.db ∧
    ((svc_get_payment_by_id st now id).2).writes = st.writes := by
  unfold svc_get_payment_by_id
  cases hc : cacheGet st.cache id with
  | some c =>
      show ((if c.is_expired now = true then
              svcFetchPayment { st with cache := cacheRemove st.cache id } now id
            else (Except.ok c.payment, st)).2.db = st.db) ∧
          ((if c.is_expired now = true then
              svcFetchPayment { st with cache := cacheRemove st.cache id } now id
            else (Except.ok c.payment, st)).2.writes = st.writes)
      by_cases he : c.is_expired now = true
      · rw [if_pos he]
        exact svcFetch_state { st with cache := cacheRemove st.cache id } now id
      · rw [if_neg he]
        exact ⟨rfl, rfl⟩
  | none => exact svcFetch_state st now id

/-- **C9.** The TTL check of the read-through cache: with an entry present
for the id, the lookup returns the cached snapshot (and changes nothing)
exactly when `now - cached_at ≤ ttl`; once `now - cached_at` exceeds the
TTL the call behaves as a miss — the stale entry is evicted and only then
is the store consulted. -/
theorem c9_cache_ttl (st : SvcState) (now : Int) (id : String) (c : CachedPayment)
    (hc : cacheGet st.cache id = some c) :
    (now - c.cached_at ≤ c.ttl_seconds →
       svc_get_payment_by_id st now id = (.ok c.payment, st)) ∧
    (now - c.cached_at > c.ttl_seconds →
       svc_get_payment_by_id st now id =
         svcFetchPayment { st with cache := cacheRemove st.cache id } now id ∧
       cacheGet (cacheRemove st.cache id) id = none) := by
  constructor
  · intro hle
    have he : ¬ c.is_expired now = true := by
      unfold CachedPayment.is_expired
      simp only [decide_eq_true_eq, not_lt]
      exact hle
    unfold svc_get_payment_by_id
    rw [hc]
    show (if c.is_expired now = true then _ else _) = _
    rw [if_neg he]
  · intro hgt
    have he : c.is_expired now = true := by
      unfold CachedPayment.is_expired
      simp only [decide_eq_true_eq]
      exact hgt
    refine ⟨?_, cacheGet_remove st.cache id⟩
    unfold svc_get_payment_by_id
    rw [hc]
    show (if c.is_expired now = true then _ else _) = _
    rw [if_pos he]

def c9p : Payment :=
  { id := "PMT-1", transaction_id := "TXN-1", amount := 100, method := .Cash,
    status := .Paid, payment_date := 0, installments := [], due_date := none }

def c9st : SvcState :=
  { db := { payments := [], installments := [] },
    cache := [("PMT-1", { payment := c9p, cached_at := 0, ttl_seconds := 300 })],
    writes := 0 }

/-- Witness for C9: within the TTL the snapshot is served; one second past
the TTL the entry is evicted and the store consulted. -/
theorem c9_cache_ttl_witness :
    svc_get_payment_by_id c9st 300 "PMT-1" = (.ok c9p, c9st) ∧
    (svc_get_payment_by_id c9st 301 "PMT-1" =
       svcFetchPayment { c9st with cache := cacheRemove c9st.cache "PMT-1" } 301 "PMT-1" ∧
     cacheGet (cacheRemove c9st.cache "PMT-1") "PMT-1" = none) :=
  ⟨(c9_cache_ttl c9st 300 "PMT-1" _ rfl).1 (by decide),
   (c9_cache_ttl c9st 301 "PMT-1" _ rfl).2 (by decide)⟩

/-- **C7.** Any filter key other than `status`, `method`,
`transaction_id` makes `get_all_payments` return a `ValidationError`
naming the key, whatever the database contents — the error is produced
before any query is issued, and the state is untouched. -/
theorem c7_unknown_filter_key (f : Filters) (k v : String)
    (hk : (k, v) ∈ f)
    (h1 : ¬ k = "status") (h2 : ¬ k = "method") (h3 : ¬ k = "transaction_id") :
    ∃ errs, ("Unknown filter key: " ++ k) ∈ errs ∧
      ∀ st : SvcState, svc_get_all_payments st (some f) =
        (.error (.ValidationError errs), st) := by
  have hmem : ("Unknown filter key: " ++ k) ∈ validate_filters f := by
    unfold validate_filters
    apply List.mem_flatMap.mpr
    refine ⟨(k, v), hk, ?_⟩
    unfold validateFilterEntry
    rw [if_neg h1, if_neg h2, if_neg h3]
    exact List.mem_singleton_self _
  cases hv : validate_filters f with
  | nil =>
      rw [hv] at hmem
      cases hmem
  | cons e es =>
      refine ⟨e :: es, hv ▸ hmem, ?_⟩
      intro st
      unfold svc_get_all_payments
      show (match validate_filters f with
        | e :: es => (Except.error (OptimizedPaymentError.ValidationError (e :: es)), st)
        | [] =>
            match find_all st.db (some f) with
            | Except.error e2 => (Except.error (convert_sqlx_error e2), st)
            | Except.ok ps => (Except.ok ps, st)) = _
      rw [hv]

/-- Witness for C7 with the unknown key `bogus`. -/
theorem c7_unknown_filter_key_witness :
    ∃ errs, ("Unknown filter key: " ++ "bogus") ∈ errs ∧
      ∀ st : SvcState, svc_get_all_payments st (some [("bogus", "x")]) =
        (.error (.ValidationError errs), st) :=
  c7_unknown_filter_key [("bogus", "x")] "bogus" "x" (by decide) (by decide) (by decide)
    (by decide)

/-! ## C4: the cache after `add_installment` -/

def c4p : Payment :=
  { id := "PMT-1", transaction_id := "TXN-1", amount := 100, method := .Cash,
    status := .Installment, payment_date := 0, installments := [], due_date := none }

def c4db : DB :=
  { payments :=
      [ { id := "PMT-1", transaction_id := "TXN-1", amount := 100, method := "CASH",
          status := "CICILAN", payment_date := 0, due_date := none } ],
    installments := [] }

def c4st : SvcState := { db := c4db, cache := [], writes := 0 }

/-- **C4 (behaviour at the failing input).**  A successful
`add_installment` on the optimized service leaves the cache entry for the
id holding the pre-mutation snapshot (it was cached by the internal read
issued before the insert, and is neither removed nor replaced), so the
call itself returns the payment without the new installment even though
the installment row was persisted, and a later `get_payment_by_id` within
the TTL still returns the pre-mutation snapshot. -/
theorem c4_add_installment_stale_cache :
    (svc_add_installment c4st 5 "PMT-1" 50 "INST-9").1 = .ok c4p ∧
    c4p.installments = [] ∧
    (svc_add_installment c4st 5 "PMT-1" 50 "INST-9").2.db.installments =
      [{ id := "INST-9", payment_id := "PMT-1", amount := 50, payment_date := 5 }] ∧
    cacheGet (svc_add_installment c4st 5 "PMT-1" 50 "INST-9").2.cache "PMT-1" =
      some { payment := c4p, cached_at := 5, ttl_seconds := 300 } ∧
    (svc_get_payment_by_id (svc_add_installment c4st 5 "PMT-1" 50 "INST-9").2 10 "PMT-1").1 =
      .ok c4p :=
  ⟨rfl, rfl, rfl, rfl, rfl⟩

/-- **C6 (amended).** The optimized service's `add_installment` rejects a
non-positive amount and rejects a target whose status is not
`Installment`, each with `InvalidInput` and no change to the database;
the naive service enforces only the status precondition (a `Paid` target
is rejected with `InvalidInput` and the database untouched), but performs
no amount check. -/
theorem c6_add_installment_guards (st : SvcState) (now : Int) (pid : String)
    (amount : ℚ) (newId : String) (db : DB) :
    (amount ≤ 0 →
       svc_add_installment st now pid amount newId =
         (.error (.InvalidInput "amount" "Amount must be greater than 0"), st)) ∧
    (∀ payment st1, ¬ amount ≤ 0 →
       svc_get_payment_by_id st now pid = (.ok payment, st1) →
       ¬ payment.status = PaymentStatus.Installment →
       svc_add_installment st now pid amount newId =
         (.error (.InvalidInput "payment_status"
           "Cannot add installment to a payment that is not in INSTALLMENT status"), st1) ∧
       st1.db = st.db) ∧
    (∀ payment, naive_svc_get_payment_by_id db pid = .ok payment →
       ¬ payment.status = PaymentStatus.Installment →
       naive_svc_add_installment db pid amount newId now =
         (db, .error (.InvalidInput
           "Cannot add installment to a payment that is not in INSTALLMENT status"))) := by
  refine ⟨?_, ?_, ?_⟩
  · intro hle
    unfold svc_add_installment
    rw [if_pos hle]
  · intro payment st1 hpos hget hstatus
    have hdb : st1.db = st.db := by
      have := (svc_get_state st now pid).1
      rw [hget] at this
      exact this
    refine ⟨?_, hdb⟩
    unfold svc_add_installment
    rw [if_neg hpos, hget]
    show (if ¬ payment.status = PaymentStatus.Installment then
        (Except.error (OptimizedPaymentError.InvalidInput "payment_status"
          "Cannot add installment to a payment that is not in INSTALLMENT status"), st1)
      else _) = _
    rw [if_pos hstatus]
  · intro payment hget hstatus
    unfold naive_svc_add_installment
    rw [hget]
    show (if ¬ payment.status = PaymentStatus.Installment then
        (db, Except.error (PaymentError.InvalidInput
          "Cannot add installment to a payment that is not in INSTALLMENT status"))
      else _) = _
    rw [if_pos hstatus]

def c6db : DB :=
  { payments :=
      [ { id := "PMT-1", transaction_id := "TXN-1", amount := 100, method := "CASH",
          status := "CICILAN", payment_date := 0, due_date := none } ],
    installments := [] }

def c6dbPaid : DB :=
  { payments :=
      [ { id := "PMT-1", transaction_id := "TXN-1", amount := 100, method := "CASH",
          status := "LUNAS", payment_date := 0, due_date := none } ],
    installments := [] }

def c6paid : Payment :=
  { id := "PMT-1", transaction_id := "TXN-1", amount := 100, method := .Cash,
    status := .Paid, payment_date := 0, installments := [], due_date := none }

/-- Counterexample to C6 as stated: the naive service's `add_installment`
performs no amount check — with `amount = 0` (not `> 0`) on an
`Installment`-status payment it succeeds instead of returning
`InvalidInput`. -/
theorem c6_counterexample :
    (0 : ℚ) ≤ 0 ∧
    (naive_svc_add_installment c6db "PMT-1" 0 "INST-2" 7).2 =
      .ok { id := "PMT-1", transaction_id := "TXN-1", amount := 100, method := .Cash,
            status := .Installment, payment_date := 0, installments := [],
            due_date := none } :=
  ⟨le_refl 0, rfl⟩

/-- Witness for C6 (amended): the optimized service rejects amount `-1`;
both services reject an installment on a `Paid` payment without touching
the database. -/
theorem c6_add_installment_guards_witness :
    (svc_add_installment { db := c6dbPaid, cache := [], writes := 0 } 0 "PMT-1" (-1) "I" =
       (.error (.InvalidInput "amount" "Amount must be greater than 0"),
        { db := c6dbPaid, cache := [], writes := 0 })) ∧
    (svc_add_installment { db := c6dbPaid, cache := [], writes := 0 } 0 "PMT-1" 5 "I" =
       (.error (.InvalidInput "payment_status"
         "Cannot add installment to a payment that is not in INSTALLMENT status"),
        { db := c6dbPaid,
          cache := [("PMT-1", { payment := c6paid, cached_at := 0, ttl_seconds := 300 })],
          writes := 0 }) ∧
     ({ db := c6dbPaid,
        cache := [("PMT-1", { payment := c6paid, cached_at := 0, ttl_seconds := 300 })],
        writes := 0 } : SvcState).db =
       ({ db := c6dbPaid, cache := [], writes := 0 } : SvcState).db) ∧
    naive_svc_add_installment c6dbPaid "PMT-1" 5 "I" 0 =
      (c6dbPaid, .error (.InvalidInput
        "Cannot add installment to a payment that is not in INSTALLMENT status")) :=
  ⟨(c6_add_installment_guards { db := c6dbPaid, cache := [], writes := 0 } 0 "PMT-1" (-1)
      "I" c6dbPaid).1 (by norm_num),
   (c6_add_installment_guards { db := c6dbPaid, cache := [], writes := 0 } 0 "PMT-1" 5
      "I" c6dbPaid).2.1 c6paid _ (by norm_num) (by rfl) (by decide),
   (c6_add_installment_guards { db := c6dbPaid, cache := [], writes := 0 } 0 "PMT-1" 5
      "I" c6dbPaid).2.2 c6paid (by rfl) (by decide)⟩

lemma cacheGet_put (cache : Cache) (id : String) (c : CachedPayment) :
    cacheGet (cachePut cache id c) id = some c := by
  unfold cacheGet cachePut cacheRemove
  induction cache with
  | nil =>
      rw [show (List.filter (fun e => decide ¬e.1 = id) ([] : Cache)) ++ [(id, c)] =
          [(id, c)] from rfl,
        List.find?_cons_of_pos _ (by simp)]
      rfl
  | cons e rest ih =>
      by_cases he : e.1 = id
      · rw [List.filter_cons_of_neg (by simpa using he)]
        exact ih
      · rw [List.filter_cons_of_pos (by simpa using he), List.cons_append,
          List.find?_cons_of_neg _ (by simpa using he)]
        exact ih

/-- **C8.** Change detection in `update_payment`: with a valid argument
whose existing payment the service fetches as `q`, a logically-equal
update short-circuits — the stored state is unchanged and the write
counter does not move — while a logically-different one performs exactly
one store update and refreshes the cache with the updated payment. -/
theorem c8_noop_update (st : SvcState) (now : Int) (p q : Payment) (st1 : SvcState)
    (hval : validate_payment p = [])
    (hget : svc_get_payment_by_id st now p.id = (.ok q, st1)) :
    (payments_are_equal q p = true →
       svc_update_payment st now p = (.ok q, st1) ∧
       st1.db = st.db ∧ st1.writes = st.writes) ∧
    (payments_are_equal q p = false →
       (svc_update_payment st now p).2.writes = st.writes + 1 ∧
       (svc_update_payment st now p).2.db = updatePaymentStmt st.db p ∧
       ∀ updated, (svc_update_payment st now p).1 = .ok updated →
         cacheGet (svc_update_payment st now p).2.cache p.id =
           some { payment := updated, cached_at := now, ttl_seconds := 300 }) := by
  have hdb : st1.db = st.db := by
    have := (svc_get_state st now p.id).1
    rw [hget] at this
    exact this
  have hwr : st1.writes = st.writes := by
    have := (svc_get_state st now p.id).2
    rw [hget] at this
    exact this
  have hou : opt_update st1.db p =
      (updatePaymentStmt st.db p, find_by_id (updatePaymentStmt st.db p) p.id) := by
    rw [hdb]
    rfl
  constructor
  · intro heq
    refine ⟨?_, hdb, hwr⟩
    unfold svc_update_payment
    rw [hval, hget]
    show (if payments_are_equal q p = true then
        ((Except.ok q : Except OptimizedPaymentError Payment), st1)
      else _) = _
    rw [if_pos heq]
  · intro hne
    have hnee : ¬ payments_are_equal q p = true := by
      rw [hne]
      exact Bool.false_ne_true
    have hstep : svc_update_payment st now p =
        (match find_by_id (updatePaymentStmt st.db p) p.id with
         | .error e =>
             (.error (convert_sqlx_error e),
              { st1 with db := updatePaymentStmt st.db p, writes := st1.writes + 1 })
         | .ok updated =>
             (.ok updated,
              { db := updatePaymentStmt st.db p,
                cache := cachePut st1.cache p.id
                  { payment := updated, cached_at := now, ttl_seconds := 300 },
                writes := st1.writes + 1 })) := by
      unfold svc_update_payment
      rw [hval, hget]
      show (if payments_are_equal q p = true then
          ((Except.ok q : Except OptimizedPaymentError Payment), st1)
        else
          match opt_update st1.db p with
          | (db2, .error e) =>
              (.error (convert_sqlx_error e), { st1 with db := db2, writes := st1.writes + 1 })
          | (db2, .ok updated) =>
              (.ok updated,
               { db := db2,
                 cache := cachePut st1.cache p.id
                   { payment := updated, cached_at := now, ttl_seconds := 300 },
                 writes := st1.writes + 1 })) = _
      rw [if_neg hnee, hou]
      cases hf : find_by_id (updatePaymentStmt st.db p) p.id with
      | error e => rfl
      | ok updated => rfl
    rw [hstep]
    cases hf : find_by_id (updatePaymentStmt st.db p) p.id with
    | error e =>
        refine ⟨by rw [hwr], rfl, ?_⟩
        intro updated hupd
        cases hupd
    | ok updated0 =>
        refine ⟨by rw [hwr], rfl, ?_⟩
        intro updated hupd
        cases hupd
        exact cacheGet_put st1.cache p.id _

def c8db : DB :=
  { payments :=
      [ { id := "PMT-1", transaction_id := "TXN-1", amount := 100, method := "CASH",
          status := "LUNAS", payment_date := 0, due_date := none } ],
    installments := [] }

def c8p : Payment :=
  { id := "PMT-1", transaction_id := "TXN-1", amount := 100, method := .Cash,
    status := .Paid, payment_date := 0, installments := [], due_date := none }

def c8st : SvcState := { db := c8db, cache := [], writes := 0 }

def c8st1 : SvcState :=
  { db := c8db,
    cache := [("PMT-1", { payment := c8p, cached_at := 0, ttl_seconds := 300 })],
    writes := 0 }

/-- Witness for C8: updating a payment with a logically-equal argument
returns the existing payment without a store write. -/
theorem c8_noop_update_witness :
    svc_update_payment c8st 0 c8p = (.ok c8p, c8st1) ∧
    c8st1.db = c8st.db ∧ c8st1.writes = c8st.writes :=
  (c8_noop_update c8st 0 c8p c8p c8st1 (by rfl) (by rfl)).1
    (by norm_num [payments_are_equal, ratAbs, f64Epsilon, c8p])

/-! ## C10: the naive service's add_installment never inserts -/

lemma parse_row_to_payment_id {r : PaymentRow} {b : Payment}
    (h : parse_row_to_payment r = .ok b) : b.id = r.id := by
  unfold parse_row_to_payment at h
  cases hm : parse_payment_method r.method with
  | none => rw [hm] at h; cases h
  | some m =>
      cases hs : PaymentStatus.from_string r.status with
      | none => rw [hm, hs] at h; cases h
      | some s =>
          rw [hm, hs] at h
          cases h
          rfl

lemma load_installments {db : DB} {pid : String} {q : Payment}
    (h : load_payment_with_installments db pid = .ok q) :
    q.installments =
      (sortInstRows (db.installments.filter fun i => i.payment_id = pid)).map
        rowToInstallment := by
  unfold load_payment_with_installments at h
  split at h
  · cases h
  · split at h
    · cases h
    · cases h
      rfl

lemma load_id {db : DB} {pid : String} {q : Payment}
    (h : load_payment_with_installments db pid = .ok q) : q.id = pid := by
  unfold load_payment_with_installments at h
  split at h
  · cases h
  next r hh =>
    have hrid : r.id = pid := by
      cases hl : db.payments.filter (fun r2 => r2.id = pid) with
      | nil => rw [hl] at hh; cases hh
      | cons x xs =>
          rw [hl] at hh
          cases hh
          have hx : r ∈ db.payments.filter (fun r2 => r2.id = pid) := by
            rw [hl]
            exact List.mem_cons_self r xs
          simpa using (List.mem_filter.mp hx).2
    split at h
    · cases h
    next base hpr =>
      cases h
      show base.id = pid
      rw [parse_row_to_payment_id hpr, hrid]

lemma naive_get_id {db : DB} {pid : String} {payment : Payment}
    (h : naive_svc_get_payment_by_id db pid = .ok payment) : payment.id = pid := by
  unfold naive_svc_get_payment_by_id at h
  cases hl : naive_find_by_id db pid with
  | error e => rw [hl] at h; cases e <;> cases h
  | ok p2 =>
      rw [hl] at h
      cases h
      exact load_id hl

lemma naive_update_fst (db : DB) (p : Payment) :
    (naive_update db p).1 = updatePaymentStmt db p := by
  unfold naive_update
  split
  · rfl
  · split
    · rfl
    · rfl

lemma naive_update_snd_ok {db : DB} {p : Payment} {q : Payment}
    (h : (naive_update db p).2 = .ok q) :
    load_payment_with_installments (updatePaymentStmt db p) p.id = .ok q := by
  unfold naive_update at h
  split at h
  · cases h
  · split at h
    · cases h
    · exact h

/-- **C10.** A successful naive-service `add_installment` never writes the
installments table: the generated installment is appended only to an
in-memory clone, the repository `update` rewrites only the payment's
scalar columns and re-reads the installments from the database, so the
returned payment's installments are exactly the (date-sorted) rows that
were already stored — the new installment is absent. -/
theorem c10_naive_add_installment_frame (db : DB) (pid : String) (amount : ℚ)
    (newId : String) (now : Int) (payment : Payment)
    (hget : naive_svc_get_payment_by_id db pid = .ok payment)
    (hst : payment.status = .Installment)
    (hfresh : ¬ newId ∈ db.installments.map InstallmentRow.id) :
    (naive_svc_add_installment db pid amount newId now).1.installments = db.installments ∧
    ∀ q, (naive_svc_add_installment db pid amount newId now).2 = .ok q →
      q.installments =
        (sortInstRows (db.installments.filter fun i => i.payment_id = pid)).map
          rowToInstallment ∧
      ¬ newId ∈ q.installments.map Installment.id := by
  have hpid : payment.id = pid := naive_get_id hget
  have hnst : ¬ ¬ payment.status = PaymentStatus.Installment := fun h => h hst
  have hstep : naive_svc_add_installment db pid amount newId now =
      (match naive_update db
          { payment with installments := payment.installments ++
              [{ id := newId, payment_id := pid, amount := amount, payment_date := now }] } with
       | (db2, .error e) => (db2, .error (.DatabaseError (reprStr e)))
       | (db2, .ok q) => (db2, .ok q)) := by
    unfold naive_svc_add_installment
    rw [hget]
    show (if ¬ payment.status = PaymentStatus.Installment then _ else _) = _
    rw [if_neg hnst]
  have hfreshQ : ∀ q : Payment,
      q.installments =
        (sortInstRows (db.installments.filter fun i => i.payment_id = pid)).map
          rowToInstallment →
      ¬ newId ∈ q.installments.map Installment.id := by
    intro q hq hmem
    rw [hq] at hmem
    rcases List.mem_map.mp hmem with ⟨i, hi, hid⟩
    rcases List.mem_map.mp hi with ⟨row, hrow, rfl⟩
    have hrow2 : row ∈ db.installments.filter fun i2 => i2.payment_id = pid :=
      (List.perm_insertionSort instRowLe _).mem_iff.mp hrow
    have hrow3 : row ∈ db.installments := (List.mem_filter.mp hrow2).1
    exact hfresh (hid ▸ List.mem_map_of_mem InstallmentRow.id hrow3)
  rw [hstep]
  cases hnu : naive_update db
      { payment with installments := payment.installments ++
          [{ id := newId, payment_id := pid, amount := amount, payment_date := now }] } with
  | mk db2 r =>
      have hdb2 : db2 = updatePaymentStmt db
          { payment with installments := payment.installments ++
              [{ id := newId, payment_id := pid, amount := amount, payment_date := now }] } := by
        have := naive_update_fst db
          { payment with installments := payment.installments ++
              [{ id := newId, payment_id := pid, amount := amount, payment_date := now }] }
        rw [hnu] at this
        exact this
      cases r with
      | error e =>
          refine ⟨?_, ?_⟩
          · show db2.installments = db.installments
            rw [hdb2]
            rfl
          · intro q hq
            cases hq
      | ok q0 =>
          have hload := @naive_update_snd_ok db
            { payment with installments := payment.installments ++
                [{ id := newId, payment_id := pid, amount := amount, payment_date := now }] }
            q0 (by rw [hnu])
          have hq0 : q0.installments =
              (sortInstRows (db.installments.filter fun i => i.payment_id = pid)).map
                rowToInstallment := by
            have := load_installments hload
            rw [show ({ payment with installments := payment.installments ++
                [{ id := newId, payment_id := pid, amount := amount,
                   payment_date := now }] } : Payment).id = pid from hpid] at this
            exact this
          refine ⟨?_, ?_⟩
          · show db2.installments = db.installments
            rw [hdb2]
            rfl
          · intro q hq
            cases hq
            exact ⟨hq0, hfreshQ q0 hq0⟩

def c10db : DB :=
  { payments :=
      [ { id := "PMT-1", transaction_id := "TXN-1", amount := 100, method := "CASH",
          status := "CICILAN", payment_date := 0, due_date := none } ],
    installments :=
      [ { id := "INST-0", payment_id := "PMT-1", amount := 10, payment_date := 2 } ] }

def c10pay : Payment :=
  { id := "PMT-1", transaction_id := "TXN-1", amount := 100, method := .Cash,
    status := .Installment, payment_date := 0,
    installments :=
      [ { id := "INST-0", payment_id := "PMT-1", amount := 10, payment_date := 2 } ],
    due_date := none }

/-- Witness for C10: adding an installment through the naive service
leaves the installments table as it was and returns a payment without the
new installment. -/
theorem c10_naive_add_installment_frame_witness :
    (naive_svc_add_installment c10db "PMT-1" 50 "INST-NEW" 7).1.installments =
      c10db.installments ∧
    ∀ q, (naive_svc_add_installment c10db "PMT-1" 50 "INST-NEW" 7).2 = .ok q →
      q.installments =
        (sortInstRows (c10db.installments.filter fun i => i.payment_id = "PMT-1")).map
          rowToInstallment ∧
      ¬ "INST-NEW" ∈ q.installments.map Installment.id :=
  c10_naive_add_installment_frame c10db "PMT-1" 50 "INST-NEW" 7 c10pay (by rfl) rfl
    (by decide)

def c5db2 : DB := { payments := [], installments := [] }

def c5p2 : Payment :=
  { id := "PMT-2", transaction_id := "TXN-2", amount := 40, method := .EWallet,
    status := .Paid, payment_date := 1, installments := [], due_date := none }

/-- Witness for C5 (amended): a successful `create` persists the payment
row (and its — here empty — installment list). -/
theorem c5_create_atomicity_witness :
    (opt_create c5db2 c5p2).1.payments = c5db2.payments ++ [paymentToRow c5p2] ∧
    (opt_create c5db2 c5p2).1.installments =
      c5db2.installments ++ c5p2.installments.map installmentToRow :=
  (c5_create_atomicity c5db2 c5p2).2 c5p2 (by rfl)

end BStore
